import Mathlib

/-!
# acctmgr: the vault security core

A shallow embedding of `scripts/accounts-manager/acctmgr.c`.

* Memory is modelled by its byte image: a C array `uint8_t a[n]` is a list of
  exactly `n` bytes (`Buf n`), a struct is the record of its members, and the
  serialisation functions below give the byte image that `fwrite`, `fread`
  and `memcpy` move around (x86-64 layout, little endian).
* The global `g_vault` is threaded explicitly through every operation.
* libsodium is not part of the repository: its three primitives are the
  fields of `Sodium`, and every property that needs a fact about them states
  that fact as a hypothesis.
* The outcome of every system call an operation makes (allocation, random
  bytes, `fopen`, `fwrite`) is supplied by an environment record, so each
  failure path of the C code is a path of the model.
-/

namespace Acctmgr

/-! ## Bytes and fixed-size buffers -/

/-- One octet. -/
abbrev Byte := Fin 256

/-- The byte image of a C array of `n` octets. -/
abbrev Buf (n : Nat) := { l : List Byte // l.length = n }

/-- The all-zero buffer, as left by `sodium_memzero` or static initialisation. -/
def Buf.zero (n : Nat) : Buf n := ⟨List.replicate n 0, List.length_replicate n 0⟩

/-- The first `n` bytes of `l` as a buffer (zero filled when `l` is shorter,
which the callers below rule out before they read). -/
def Buf.ofList (n : Nat) (l : List Byte) : Buf n :=
  ⟨l.take n ++ List.replicate (n - l.length) 0, by
    rw [List.length_append, List.length_take, List.length_replicate]; omega⟩

/-- Little-endian image of the low `w` octets of `n`. -/
def leBytes : Nat → Nat → List Byte
  | 0, _ => []
  | w + 1, n => ⟨n % 256, Nat.mod_lt n (by decide)⟩ :: leBytes w (n / 256)

/-- The number whose little-endian image is `l`. -/
def ofLe : List Byte → Nat
  | [] => 0
  | b :: l => b.val + 256 * ofLe l

/-- A `uint64_t`. -/
abbrev U64 := Fin 18446744073709551616

/-- Memory image of a `uint64_t`. -/
def le64 (x : U64) : List Byte := leBytes 8 x.val

/-- The `uint64_t` stored in the first 8 bytes of `l`. -/
def u64OfBytes (l : List Byte) : U64 :=
  ⟨ofLe (l.take 8) % 18446744073709551616, Nat.mod_lt _ (by decide)⟩

/-! ## Constants -/

/-- The magic tag "ACCT". -/
def VAULT_MAGIC : Buf 4 := ⟨[65, 67, 67, 84], rfl⟩

/-- The only accepted format version. -/
def VAULT_VERSION : Byte := 1

/-- Capacity of the record array. -/
abbrev MAX_ENTRIES : Nat := 256

abbrev MAX_NAME_LEN : Nat := 64
abbrev MAX_CATEGORY_LEN : Nat := 32
abbrev MAX_USERNAME_LEN : Nat := 64
abbrev MAX_PASSWORD_LEN : Nat := 128
abbrev MAX_URL_LEN : Nat := 256
abbrev MAX_SSH_KEY_LEN : Nat := 256
abbrev MAX_NOTES_LEN : Nat := 512

/-- Value of libsodium's `crypto_pwhash_SALTBYTES`. -/
abbrev crypto_pwhash_SALTBYTES : Nat := 16
/-- Value of libsodium's `crypto_secretbox_NONCEBYTES`. -/
abbrev crypto_secretbox_NONCEBYTES : Nat := 24
/-- Value of libsodium's `crypto_secretbox_KEYBYTES`. -/
abbrev crypto_secretbox_KEYBYTES : Nat := 32
/-- Value of libsodium's `crypto_secretbox_MACBYTES`. -/
abbrev crypto_secretbox_MACBYTES : Nat := 16

/-! ## Data structures -/

/-- The struct `AccountEntry`: seven character arrays and two timestamps. -/
structure AccountEntry where
  name : Buf MAX_NAME_LEN
  category : Buf MAX_CATEGORY_LEN
  username : Buf MAX_USERNAME_LEN
  password : Buf MAX_PASSWORD_LEN
  url : Buf MAX_URL_LEN
  ssh_key_path : Buf MAX_SSH_KEY_LEN
  notes : Buf MAX_NOTES_LEN
  created_at : U64
  updated_at : U64
deriving DecidableEq

/-- The value of `sizeof(AccountEntry)`: the members are contiguous and the
total, 1328, is a multiple of 8, so the struct has no padding. -/
abbrev sizeof_AccountEntry : Nat := 1328

/-- The record whose every byte is zero. -/
def AccountEntry.zero : AccountEntry :=
  { name := Buf.zero _, category := Buf.zero _, username := Buf.zero _,
    password := Buf.zero _, url := Buf.zero _, ssh_key_path := Buf.zero _,
    notes := Buf.zero _, created_at := 0, updated_at := 0 }

/-- Memory image of a record. -/
def AccountEntry.toBytes (e : AccountEntry) : List Byte :=
  e.name.val ++ (e.category.val ++ (e.username.val ++ (e.password.val ++ (e.url.val ++
    (e.ssh_key_path.val ++ (e.notes.val ++ (le64 e.created_at ++ le64 e.updated_at)))))))

/-- The record whose memory image is the first 1328 bytes of `l`. -/
def AccountEntry.ofBytes (l : List Byte) : AccountEntry :=
  { name := Buf.ofList MAX_NAME_LEN l
    category := Buf.ofList MAX_CATEGORY_LEN (l.drop 64)
    username := Buf.ofList MAX_USERNAME_LEN (l.drop 96)
    password := Buf.ofList MAX_PASSWORD_LEN (l.drop 160)
    url := Buf.ofList MAX_URL_LEN (l.drop 288)
    ssh_key_path := Buf.ofList MAX_SSH_KEY_LEN (l.drop 544)
    notes := Buf.ofList MAX_NOTES_LEN (l.drop 800)
    created_at := u64OfBytes (l.drop 1312)
    updated_at := u64OfBytes (l.drop 1320) }

/-- The struct `VaultHeader`. The compiler places three padding bytes after
`nonce` so that `entry_count` is 4-aligned; `fwrite` and `fread` move them
with the rest of the struct, so they are part of the image. -/
structure VaultHeader where
  magic : Buf 4
  version : Byte
  salt : Buf crypto_pwhash_SALTBYTES
  nonce : Buf crypto_secretbox_NONCEBYTES
  pad : Buf 3
  entry_count : Nat
deriving DecidableEq

/-- The value of `sizeof(VaultHeader)`. -/
abbrev sizeof_VaultHeader : Nat := 52

/-- Memory image of a header; `entry_count` is a `uint32_t`. -/
def VaultHeader.toBytes (h : VaultHeader) : List Byte :=
  h.magic.val ++ (h.version :: (h.salt.val ++ (h.nonce.val ++ (h.pad.val ++
    leBytes 4 (h.entry_count % 4294967296)))))

/-- The header whose memory image is the first 52 bytes of `l`. -/
def VaultHeader.ofBytes (l : List Byte) : VaultHeader :=
  { magic := Buf.ofList 4 l
    version := (l.drop 4).headD 0
    salt := Buf.ofList crypto_pwhash_SALTBYTES (l.drop 5)
    nonce := Buf.ofList crypto_secretbox_NONCEBYTES (l.drop 21)
    pad := Buf.ofList 3 (l.drop 45)
    entry_count := ofLe ((l.drop 48).take 4) }

/-- The struct `Vault`, the type of the global `g_vault`. `entries i` is slot
`i` of the array `entries[MAX_ENTRIES]`; only indices below `MAX_ENTRIES`
denote memory. `count` is a `uint32_t`. -/
structure Vault where
  header : VaultHeader
  entries : Nat → AccountEntry
  count : Nat
  unlocked : Bool
  modified : Bool
  vault_path : List Byte
  key : Buf crypto_secretbox_KEYBYTES

/-- The zero-initialised static `g_vault` a process starts with. -/
def Vault.init : Vault :=
  { header := { magic := Buf.zero _, version := 0, salt := Buf.zero _, nonce := Buf.zero _,
                pad := Buf.zero _, entry_count := 0 }
    entries := fun _ => AccountEntry.zero
    count := 0
    unlocked := false
    modified := false
    vault_path := []
    key := Buf.zero _ }

/-! ## The collaborators outside the repository -/

/-- The three libsodium primitives the program calls.

* `crypto_pwhash passwd salt` is the pair of the success flag (return value
  0) and the contents of the 32-byte output buffer after the call.
* `crypto_secretbox_easy m n k` is the box (tag and ciphertext, `m.length +
  16` bytes in libsodium) or `none` for a non-zero return value.
* `crypto_secretbox_open_easy c n k` is the opened message or `none` for a
  non-zero return value (forged or damaged box). -/
structure Sodium where
  crypto_pwhash : List Byte → Buf crypto_pwhash_SALTBYTES → Bool × Buf crypto_secretbox_KEYBYTES
  crypto_secretbox_easy : List Byte → Buf crypto_secretbox_NONCEBYTES →
    Buf crypto_secretbox_KEYBYTES → Option (List Byte)
  crypto_secretbox_open_easy : List Byte → Buf crypto_secretbox_NONCEBYTES →
    Buf crypto_secretbox_KEYBYTES → Option (List Byte)

/-- What the system does during one call of `vault_save`. -/
structure SaveEnv where
  /-- Whether `sodium_malloc` for the plaintext returned a buffer. -/
  plaintext_alloc : Bool
  /-- Whether `sodium_malloc` for the ciphertext returned a buffer. -/
  ciphertext_alloc : Bool
  /-- The bytes in the first 16 octets of the fresh ciphertext buffer. -/
  ciphertext_init : Buf crypto_secretbox_MACBYTES
  /-- The bytes `randombytes_buf` draws for the nonce. -/
  nonce : Buf crypto_secretbox_NONCEBYTES
  /-- Whether `fopen(vault_path, "wb")` returned a stream. -/
  fopen_ok : Bool
  /-- How many bytes of the header reach the file. -/
  header_written : Nat
  /-- How many bytes of the ciphertext reach the file. -/
  ciphertext_written : Nat

/-- Return value of `vault_save`, the vault afterwards, and the new contents
of the file at `vault_path` (`none` when the file was not opened). -/
structure SaveResult where
  ret : Bool
  vault : Vault
  file : Option (List Byte)

/-- What the system does during one call of `vault_load`. -/
structure LoadEnv where
  /-- Whether `sodium_malloc` for the ciphertext returned a buffer. -/
  ciphertext_alloc : Bool
  /-- Whether `sodium_malloc` for the plaintext returned a buffer. -/
  plaintext_alloc : Bool

/-- Return value of `vault_load` and the vault afterwards. -/
structure LoadResult where
  ret : Bool
  vault : Vault

/-! ## Utility functions -/

/-- The characters `trim` strips: space, tab, newline, carriage return. -/
def isTrimSpace (c : Byte) : Bool := c == 32 || c == 9 || c == 10 || c == 13

/-- The function `trim` on the contents of a C string: leading blanks are
skipped, then trailing blanks are cut. After the leading blanks the first
character is not blank, so the backward scan always stops inside the string. -/
def trim (str : List Byte) : List Byte :=
  ((str.dropWhile isTrimSpace).reverse.dropWhile isTrimSpace).reverse

/-- The function `derive_key`: success flag and new contents of the key buffer. -/
def derive_key (sod : Sodium) (password : List Byte) (salt : Buf crypto_pwhash_SALTBYTES) :
    Bool × Buf crypto_secretbox_KEYBYTES :=
  sod.crypto_pwhash password salt

/-- The first `n` records of the array as contiguous bytes: what
`memcpy(plaintext, g_vault.entries, sizeof(AccountEntry) * n)` copies. -/
def entriesBytes (es : Nat → AccountEntry) : Nat → List Byte
  | 0 => []
  | n + 1 => entriesBytes es n ++ (es n).toBytes

/-- The array after `memcpy(g_vault.entries, plaintext, sizeof(AccountEntry) * n)`. -/
def entriesOfBytes (plaintext : List Byte) (n : Nat) (old : Nat → AccountEntry) :
    Nat → AccountEntry :=
  fun i => if i < n then AccountEntry.ofBytes (plaintext.drop (sizeof_AccountEntry * i)) else old i

/-- Array assignment `es[i] = e`. -/
def setEntry (es : Nat → AccountEntry) (i : Nat) (e : AccountEntry) : Nat → AccountEntry :=
  fun j => if j = i then e else es j

/-- The cast `(int)c` of a `uint32_t`. -/
def int_of_u32 (c : Nat) : Int :=
  if c % 4294967296 < 2147483648 then (c % 4294967296 : Nat) else (c % 4294967296 : Nat) - 4294967296

/-- The conversion of an `int` to `uint32_t`. -/
def u32_of_int (x : Int) : Nat := (x % 4294967296).toNat

/-- The `uint32_t` subtraction `c - 1`. -/
def u32_pred (c : Nat) : Nat := (c + 4294967295) % 4294967296

/-! ## Vault file operations -/

/-- The function `vault_save`. -/
def vault_save (sod : Sodium) (env : SaveEnv) (g : Vault) : SaveResult :=
  if g.unlocked = false ∨ g.modified = false then ⟨true, g, none⟩
  else
    let plaintext_len := sizeof_AccountEntry * g.count
    if env.plaintext_alloc = false ∧ 0 < plaintext_len then ⟨false, g, none⟩
    else
      let plaintext := entriesBytes g.entries g.count
      let ciphertext_len := plaintext_len + crypto_secretbox_MACBYTES
      if env.ciphertext_alloc = false ∧ 0 < ciphertext_len then ⟨false, g, none⟩
      else
        -- Generate new nonce for each save
        let g1 : Vault := { g with header := { g.header with nonce := env.nonce } }
        let boxed : Option (List Byte) :=
          if 0 < plaintext_len then sod.crypto_secretbox_easy plaintext g1.header.nonce g1.key
          else some env.ciphertext_init.val
        match boxed with
        | none => ⟨false, g1, none⟩
        | some ciphertext =>
          -- Update header
          let g2 : Vault := { g1 with header := { g1.header with entry_count := g1.count } }
          -- Write to file
          if env.fopen_ok = false then ⟨false, g2, none⟩
          else
            let out_header := g2.header.toBytes.take env.header_written
            let out_body :=
              if 0 < ciphertext_len then ciphertext.take env.ciphertext_written else []
            ⟨true, { g2 with modified := false }, some (out_header ++ out_body)⟩

/-- The function `vault_load`; `file` is the contents of the file at `path`,
or `none` when `fopen` fails. A header read that stops short leaves the
bytes it did read in the header struct. -/
def vault_load (sod : Sodium) (env : LoadEnv) (file : Option (List Byte))
    (path password : List Byte) (g : Vault) : LoadResult :=
  match file with
  | none => ⟨false, g⟩
  | some bytes =>
    -- Read header
    if bytes.length < sizeof_VaultHeader then
      ⟨false, { g with header := VaultHeader.ofBytes (bytes ++ g.header.toBytes.drop bytes.length) }⟩
    else
      let g1 : Vault := { g with header := VaultHeader.ofBytes bytes }
      -- Verify magic
      if g1.header.magic ≠ VAULT_MAGIC then ⟨false, g1⟩
      -- Check version
      else if g1.header.version ≠ VAULT_VERSION then ⟨false, g1⟩
      else
        -- Derive key
        let derived := derive_key sod password g1.header.salt
        let g2 : Vault := { g1 with key := derived.2 }
        if derived.1 = false then ⟨false, g2⟩
        else
          let g3 : Vault := { g2 with count := g2.header.entry_count }
          let wiped : Vault := { g3 with key := Buf.zero _ }
          if MAX_ENTRIES < g3.count then ⟨false, wiped⟩
          else if 0 < g3.count then
            -- Read and decrypt entries if any exist
            let plaintext_len := sizeof_AccountEntry * g3.count
            let ciphertext_len := plaintext_len + crypto_secretbox_MACBYTES
            let body := bytes.drop sizeof_VaultHeader
            if env.ciphertext_alloc = false then ⟨false, wiped⟩
            else if body.length < ciphertext_len then ⟨false, wiped⟩
            else if env.plaintext_alloc = false then ⟨false, wiped⟩
            else
              match sod.crypto_secretbox_open_easy (body.take ciphertext_len)
                  g3.header.nonce g3.key with
              | none => ⟨false, wiped⟩
              | some plaintext =>
                ⟨true, { g3 with entries := entriesOfBytes plaintext g3.count g3.entries
                                 vault_path := path.take 511
                                 unlocked := true
                                 modified := false }⟩
          else
            ⟨true, { g3 with vault_path := path.take 511, unlocked := true, modified := false }⟩

/-- The function `vault_lock`: the vault afterwards and what the save it may
run did to the file. -/
def vault_lock (sod : Sodium) (env : SaveEnv) (g : Vault) : Vault × Option (List Byte) :=
  let saved : SaveResult := if g.modified = true then vault_save sod env g else ⟨true, g, none⟩
  ({ saved.vault with key := Buf.zero _
                      entries := fun _ => AccountEntry.zero
                      unlocked := false
                      count := 0 },
   saved.file)

/-! ## Account management -/

/-- The function `cmd_delete`; `buf` is the C string `get_input` left in the
answer buffer. The loop `for (i = idx - 1; i < count - 1; i++)` runs over the
indices `idx - 1, ..., count - 2` in order. -/
def cmd_delete (idx : Int) (buf : List Byte) (g : Vault) : Vault :=
  if idx < 1 ∨ idx > int_of_u32 g.count then g
  else if trim buf ≠ [121, 101, 115] then g
  else
    let first := u32_of_int (idx - 1)
    let last := u32_pred g.count
    -- Shift entries down
    let shifted := (List.range' first (last - first)).foldl
      (fun es i => setEntry es i (es (i + 1))) g.entries
    -- Clear last entry
    { g with entries := setEntry shifted last AccountEntry.zero
             count := last
             modified := true }

/-! ## Strings, passwords and time -/

/-- The contents of the C string stored at the start of `l`: the bytes before
the first zero byte. -/
def cstr (l : List Byte) : List Byte := l.takeWhile (fun b => b != 0)

/-- The call `strncpy(dst, src, n)` on a destination array of `len` bytes
(`n` at most `len`): the first `n` bytes become the string `src`, cut at `n`
characters and zero filled up to `n`; the bytes from `n` on keep their
contents. -/
def strncpy {len : Nat} (dst : Buf len) (src : List Byte) (n : Nat) : Buf len :=
  Buf.ofList len
    (((cstr src).take n ++ List.replicate (n - (cstr src).length) 0) ++ dst.val.drop n)

/-- The array `charset` of `generate_password`, without its terminator. -/
def charset : List Byte :=
  [97, 98, 99, 100, 101, 102, 103, 104, 105, 106, 107, 108, 109, 110, 111, 112,
   113, 114, 115, 116, 117, 118, 119, 120, 121, 122, 65, 66, 67, 68, 69, 70,
   71, 72, 73, 74, 75, 76, 77, 78, 79, 80, 81, 82, 83, 84, 85, 86,
   87, 88, 89, 90, 48, 49, 50, 51, 52, 53, 54, 55, 56, 57, 33, 64,
   35, 36, 37, 94, 38, 42, 40, 41, 45, 95, 61, 43, 91, 93, 123, 125,
   124, 59, 58, 44, 46, 60, 62, 63]

/-- The value of `charset_len`, `sizeof(charset) - 1`. -/
abbrev charset_len : Nat := 88

/-- The function `generate_password`: the string left in a buffer of `len`
bytes. `rand i` is the value of the `i`-th call of `randombytes_uniform`,
brought into the range below `charset_len` that the library guarantees. For
`len < 2` the function returns at once and the string is taken as empty. -/
def generate_password (rand : Nat → Nat) (len : Nat) : List Byte :=
  if len < 2 then []
  else (List.range (len - 1)).map (fun i => charset.getD (rand i % charset_len) 0)

/-- The `uint32_t` increment `c + 1`. -/
def u32_succ (c : Nat) : Nat := (c + 1) % 4294967296

/-- The string "general". -/
def str_general : List Byte := [103, 101, 110, 101, 114, 97, 108]

/-- The string "g". -/
def str_g : List Byte := [103]

/-! ## Creating a vault -/

/-- What the random source delivers during one call of `vault_create`. -/
structure CreateEnv where
  /-- The bytes `randombytes_buf` draws for the salt. -/
  salt : Buf crypto_pwhash_SALTBYTES
  /-- The bytes `randombytes_buf` draws for the nonce. -/
  nonce : Buf crypto_secretbox_NONCEBYTES

/-- The function `vault_create`. -/
def vault_create (sod : Sodium) (env : CreateEnv) (path password : List Byte) (g : Vault) :
    LoadResult :=
  let g1 : Vault :=
    { g with header := { g.header with magic := VAULT_MAGIC, version := VAULT_VERSION,
                                       entry_count := 0 }
             count := 0 }
  -- Generate random salt and nonce
  let g2 : Vault := { g1 with header := { g1.header with salt := env.salt, nonce := env.nonce } }
  -- Derive key from password
  let derived := derive_key sod password g2.header.salt
  let g3 : Vault := { g2 with key := derived.2 }
  if derived.1 = false then ⟨false, g3⟩
  else ⟨true, { g3 with vault_path := path.take 511, unlocked := true, modified := true }⟩

/-- The function `die`: the vault as the process leaves it when it exits. -/
def die (g : Vault) : Vault :=
  if g.unlocked = true then
    { g with key := Buf.zero _, entries := fun _ => AccountEntry.zero }
  else g

/-- Outcome of the new-vault branch of `main`: the exit status when the
process ends there (`none` when it goes on to the command loop), the vault,
and the contents of the vault file if it was opened for writing. -/
structure MainResult where
  exit : Option Nat
  vault : Vault
  file : Option (List Byte)

/-- The branch of `main` taken when no vault file exists: the two password
prompts are compared, then `vault_create` and `vault_save` run. -/
def main_create (sod : Sodium) (cenv : CreateEnv) (senv : SaveEnv)
    (vault_path password confirm : List Byte) (g : Vault) : MainResult :=
  if password ≠ confirm then ⟨some 1, die g, none⟩
  else
    let created := vault_create sod cenv vault_path password g
    if created.ret = false then ⟨some 1, created.vault, none⟩
    else
      -- Save initial empty vault
      let saved := vault_save sod senv created.vault
      if saved.ret = false then ⟨some 1, saved.vault, saved.file⟩
      else ⟨none, saved.vault, saved.file⟩

/-! ## Adding and editing records -/

/-- What the user and the system supply during one call of `cmd_add`: the C
string each `get_input` leaves in `buf` (`hidden` is the answer to the
hidden password prompt, read only when the password answer is blank), the
random draws for a generated password, and the value of `get_timestamp`. -/
structure AddInput where
  name : List Byte
  category : List Byte
  username : List Byte
  password : List Byte
  hidden : List Byte
  url : List Byte
  ssh_key_path : List Byte
  notes : List Byte
  rand : Nat → Nat
  now : U64

/-- The record `cmd_add` builds in the zeroed slot from its inputs. -/
def new_entry (inp : AddInput) : AccountEntry :=
  let z := AccountEntry.zero
  { name := strncpy z.name (trim inp.name) (MAX_NAME_LEN - 1)
    category :=
      if (trim inp.category).length = 0 then strncpy z.category str_general (MAX_CATEGORY_LEN - 1)
      else strncpy z.category (trim inp.category) (MAX_CATEGORY_LEN - 1)
    username := strncpy z.username (trim inp.username) (MAX_USERNAME_LEN - 1)
    password :=
      if trim inp.password = str_g then
        strncpy z.password (generate_password inp.rand 25) (MAX_PASSWORD_LEN - 1)
      else if 0 < (trim inp.password).length then
        strncpy z.password (trim inp.password) (MAX_PASSWORD_LEN - 1)
      else strncpy z.password inp.hidden (MAX_PASSWORD_LEN - 1)
    url := strncpy z.url (trim inp.url) (MAX_URL_LEN - 1)
    ssh_key_path := strncpy z.ssh_key_path (trim inp.ssh_key_path) (MAX_SSH_KEY_LEN - 1)
    notes := strncpy z.notes (trim inp.notes) (MAX_NOTES_LEN - 1)
    created_at := inp.now
    updated_at := inp.now }

/-- The function `cmd_add`. The slot at index `count` is zeroed before the
name is read; an empty name answer cancels. -/
def cmd_add (inp : AddInput) (g : Vault) : Vault :=
  if MAX_ENTRIES ≤ g.count then g
  else
    let g0 : Vault := { g with entries := setEntry g.entries g.count AccountEntry.zero }
    if inp.name.length = 0 then g0
    else
      { g0 with entries := setEntry g0.entries g.count (new_entry inp)
                count := u32_succ g.count
                modified := true }

/-- What the user and the system supply during one call of `cmd_edit`. -/
structure EditInput where
  name : List Byte
  category : List Byte
  username : List Byte
  password : List Byte
  url : List Byte
  ssh_key_path : List Byte
  notes : List Byte
  rand : Nat → Nat
  now : U64

/-- The record `cmd_edit` leaves in place of `e`. -/
def edited_entry (inp : EditInput) (e : AccountEntry) : AccountEntry :=
  { name :=
      if 0 < (trim inp.name).length then strncpy e.name (trim inp.name) (MAX_NAME_LEN - 1)
      else e.name
    category :=
      if 0 < (trim inp.category).length then
        strncpy e.category (trim inp.category) (MAX_CATEGORY_LEN - 1)
      else e.category
    username :=
      if 0 < (trim inp.username).length then
        strncpy e.username (trim inp.username) (MAX_USERNAME_LEN - 1)
      else e.username
    password :=
      if trim inp.password = str_g then
        strncpy e.password (generate_password inp.rand 25) (MAX_PASSWORD_LEN - 1)
      else if 0 < (trim inp.password).length then
        strncpy e.password (trim inp.password) (MAX_PASSWORD_LEN - 1)
      else e.password
    url :=
      if 0 < (trim inp.url).length then strncpy e.url (trim inp.url) (MAX_URL_LEN - 1)
      else e.url
    ssh_key_path :=
      if 0 < (trim inp.ssh_key_path).length then
        strncpy e.ssh_key_path (trim inp.ssh_key_path) (MAX_SSH_KEY_LEN - 1)
      else e.ssh_key_path
    notes :=
      if 0 < (trim inp.notes).length then strncpy e.notes (trim inp.notes) (MAX_NOTES_LEN - 1)
      else e.notes
    created_at := e.created_at
    updated_at := inp.now }

/-- The function `cmd_edit`; the record edited is `entries[idx - 1]`. -/
def cmd_edit (idx : Int) (inp : EditInput) (g : Vault) : Vault :=
  if idx < 1 ∨ idx > int_of_u32 g.count then g
  else
    { g with entries := setEntry g.entries (idx - 1).toNat
                          (edited_entry inp (g.entries (idx - 1).toNat))
             modified := true }

/-! ## Session invariant and test doubles -/

/-- The facts `vault_create` and a successful `vault_load` establish for the
master password `pw`, and which adding, editing and deleting records keep:
the vault is unlocked, its header carries the magic tag and version, its key
is the one derived from `pw` and the header salt, and `count` is within
capacity. -/
def Session (sod : Sodium) (pw : List Byte) (g : Vault) : Prop :=
  g.unlocked = true ∧ g.header.magic = VAULT_MAGIC ∧ g.header.version = VAULT_VERSION ∧
    derive_key sod pw g.header.salt = (true, g.key) ∧ g.count ≤ MAX_ENTRIES

instance (sod : Sodium) (pw : List Byte) (g : Vault) : Decidable (Session sod pw g) := by
  unfold Session
  infer_instance

/-- The tag of the stand-in box: the first 16 key bytes plus the first 16
nonce bytes, bytewise. -/
def toyTag (n : Buf crypto_secretbox_NONCEBYTES) (k : Buf crypto_secretbox_KEYBYTES) :
    List Byte :=
  List.zipWith (fun a b => a + b) (k.val.take 16) (n.val.take 16)

/-- A stand-in for libsodium on which the theorems below are instantiated:
the key is the first 32 bytes of the password followed by the salt, a box is
the tag followed by the message, and a box opens when its tag matches. -/
def toySodium : Sodium :=
  { crypto_pwhash := fun pw salt => (true, Buf.ofList _ (pw ++ salt.val))
    crypto_secretbox_easy := fun m n k => some (toyTag n k ++ m)
    crypto_secretbox_open_easy := fun c n k =>
      if c.take 16 = toyTag n k then some (c.drop 16) else none }

/-- A `vault_save` environment in which every system call succeeds; the
nonce drawn is 24 bytes of value 7 and the fresh buffer holds 0xdb. -/
def okSaveEnv : SaveEnv :=
  { plaintext_alloc := true
    ciphertext_alloc := true
    ciphertext_init := ⟨List.replicate 16 219, rfl⟩
    nonce := ⟨List.replicate 24 7, rfl⟩
    fopen_ok := true
    header_written := sizeof_VaultHeader
    ciphertext_written := sizeof_AccountEntry * MAX_ENTRIES + crypto_secretbox_MACBYTES }

/-- A `vault_load` environment in which both allocations succeed. -/
def okLoadEnv : LoadEnv := { ciphertext_alloc := true, plaintext_alloc := true }

/-- The password "p". -/
def pwP : List Byte := [112]

/-- The password "q". -/
def pwQ : List Byte := [113]

/-- An unlocked, modified vault under password "p" with zero salt: magic and
version set, `n` records (all slots zero), key derived by the stand-in. -/
def sampleVault (n : Nat) : Vault :=
  { Vault.init with
    header := { Vault.init.header with magic := VAULT_MAGIC, version := VAULT_VERSION }
    count := n
    unlocked := true
    modified := true
    key := (toySodium.crypto_pwhash pwP (Buf.zero _)).2 }

/-- The container `vault_save` writes for one record under "p", with the
low byte of its record-count field (offset 48) overwritten by 0. -/
def countZeroed : Option (List Byte) :=
  (vault_save toySodium okSaveEnv (sampleVault 1)).file.map (fun f => f.set 48 0)

/-- The container `vault_save` writes for one record under "p", with the
first byte of the tag (offset 52) overwritten by 0. -/
def tagDamaged : List Byte :=
  ((vault_save toySodium okSaveEnv (sampleVault 1)).file.getD []).set 52 0

/-- A 52-byte file: a header with the right magic and version that declares
257 records, and nothing after it. -/
def oversizedFile : List Byte :=
  ({ magic := VAULT_MAGIC, version := VAULT_VERSION, salt := Buf.zero _, nonce := Buf.zero _,
     pad := Buf.zero _, entry_count := 257 } : VaultHeader).toBytes

/-- A `vault_save` environment in which the file opens but no byte of either
write reaches it (a full disk). -/
def diskFullEnv : SaveEnv :=
  { okSaveEnv with header_written := 0, ciphertext_written := 0 }

/-- A library in which every primitive fails: no key is derived, nothing is
sealed, nothing opens. -/
def failingSodium : Sodium :=
  { crypto_pwhash := fun _ _ => (false, Buf.zero _)
    crypto_secretbox_easy := fun _ _ _ => none
    crypto_secretbox_open_easy := fun _ _ _ => none }

/-- A 52-byte file whose magic tag reads "ACCU". -/
def badMagicFile : List Byte :=
  ({ magic := ⟨[65, 67, 67, 85], rfl⟩, version := VAULT_VERSION, salt := Buf.zero _,
     nonce := Buf.zero _, pad := Buf.zero _, entry_count := 0 } : VaultHeader).toBytes

/-- The live records of the store, in order: slots `0 .. count - 1`. -/
def Vault.records (g : Vault) : List AccountEntry :=
  (List.range g.count).map g.entries

/-- Three distinguishable records. -/
def recA : AccountEntry := { AccountEntry.zero with created_at := 1 }
def recB : AccountEntry := { AccountEntry.zero with created_at := 2 }
def recC : AccountEntry := { AccountEntry.zero with created_at := 3 }

/-- An unlocked vault holding the records A, B, C at indices 0, 1, 2, not yet
modified. -/
def abcVault : Vault :=
  { sampleVault 3 with
    entries := fun i => if i = 0 then recA else if i = 1 then recB else if i = 2 then recC
      else AccountEntry.zero
    modified := false }

/-- The answer "yes". -/
def answerYes : List Byte := [121, 101, 115]

/-! ## Sequences of vault operations -/

/-- One vault operation together with everything the user and the system
supply to it. -/
inductive Op where
  | create (env : CreateEnv) (path password : List Byte)
  | load (env : LoadEnv) (file : Option (List Byte)) (path password : List Byte)
  | add (inp : AddInput)
  | edit (idx : Int) (inp : EditInput)
  | delete (idx : Int) (buf : List Byte)
  | save (env : SaveEnv)
  | lock (env : SaveEnv)

/-- The vault after one operation. -/
def Op.apply (sod : Sodium) : Op → Vault → Vault
  | Op.create env path password, g => (vault_create sod env path password g).vault
  | Op.load env file path password, g => (vault_load sod env file path password g).vault
  | Op.add inp, g => cmd_add inp g
  | Op.edit idx inp, g => cmd_edit idx inp g
  | Op.delete idx buf, g => cmd_delete idx buf g
  | Op.save env, g => (vault_save sod env g).vault
  | Op.lock env, g => (vault_lock sod env g).1

/-- The vault after a sequence of operations, first to last. -/
def run_ops (sod : Sodium) (ops : List Op) (g : Vault) : Vault :=
  ops.foldl (fun v op => op.apply sod v) g

/-- The Locked state as process start and `vault_lock` leave it: `unlocked`
is false and no record is resident, every slot of the array being zero. -/
def LockedEmpty (g : Vault) : Prop :=
  g.unlocked = false ∧ ∀ i, i < MAX_ENTRIES → g.entries i = AccountEntry.zero

instance (g : Vault) : Decidable (LockedEmpty g) := by
  unfold LockedEmpty
  infer_instance

/-- The calling discipline of `main`: `vault_create` and `vault_load` are
applied to a vault in the Locked state, and only a `vault_load` that returns
true is followed by further operations. -/
def Op.admissible (sod : Sodium) : Op → Vault → Prop
  | Op.create _ _ _, g => LockedEmpty g
  | Op.load env file path password, g =>
      LockedEmpty g ∧ (vault_load sod env file path password g).ret = true
  | _, _ => True

/-- Every operation of the sequence is admissible in the state it is applied to. -/
def Admissible (sod : Sodium) : List Op → Vault → Prop
  | [], _ => True
  | op :: ops, g => op.admissible sod g ∧ Admissible sod ops (op.apply sod g)

/-- The answers that add a record named "A" with password "p" at time 5. -/
def addA : AddInput :=
  { name := [65], category := [], username := [], password := [112], hidden := [],
    url := [], ssh_key_path := [], notes := [], rand := fun _ => 0, now := 5 }

/-- The answers that rename a record to "Z" at time 9 and keep the rest. -/
def editZ : EditInput :=
  { name := [90], category := [], username := [], password := [], url := [],
    ssh_key_path := [], notes := [], rand := fun _ => 0, now := 9 }

/-- The random bytes of a creation: salt and nonce all zero. -/
def zeroCreateEnv : CreateEnv := { salt := Buf.zero _, nonce := Buf.zero _ }

/-- The 68-byte container of an empty vault: sound header, count 0, and 16
bytes after it. -/
def emptyContainer : List Byte :=
  ({ magic := VAULT_MAGIC, version := VAULT_VERSION, salt := Buf.zero _, nonce := Buf.zero _,
     pad := Buf.zero _, entry_count := 0 } : VaultHeader).toBytes ++ List.replicate 16 219

/-- The count is within capacity and every record slot from index `count` up
to the end of the array is zero. -/
def PastCountZero (g : Vault) : Prop :=
  g.count ≤ MAX_ENTRIES ∧ ∀ i, g.count ≤ i → i < MAX_ENTRIES → g.entries i = AccountEntry.zero

instance (g : Vault) : Decidable (PastCountZero g) := by
  unfold PastCountZero
  infer_instance

/-- The answers that add a record at time 7: name " Bob " with blanks around
it, a blank category, password "g" (generate) with the draws 0, 1, 2, ...,
and a tab for the URL. -/
def addB : AddInput :=
  { name := [32, 66, 111, 98, 32], category := [32], username := [], password := [103],
    hidden := [], url := [9], ssh_key_path := [], notes := [], rand := fun i => i, now := 7 }

/-- The answers that rename a record to "Zed" (typed with blanks around it)
at time 9 and leave every other answer blank. -/
def editB : EditInput :=
  { name := [32, 90, 101, 100, 32], category := [], username := [], password := [32],
    url := [], ssh_key_path := [], notes := [], rand := fun _ => 0, now := 9 }

/-- The vault that holds the single record "A" with password "p". -/
def oneVault : Vault := cmd_add addA (sampleVault 0)

/-- The stand-in library with a `crypto_secretbox_open_easy` that rejects
every box. -/
def noOpenSodium : Sodium :=
  { toySodium with crypto_secretbox_open_easy := fun _ _ _ => none }

/-- A library whose `crypto_pwhash` always fails and leaves 32 bytes of value
0xAA in its output buffer. -/
def residueSodium : Sodium :=
  { toySodium with crypto_pwhash := fun _ _ => (false, ⟨List.replicate 32 170, rfl⟩) }

/-! ## Byte images: lengths and round trips -/

theorem leBytes_length (w n : Nat) : (leBytes w n).length = w := by
  induction w generalizing n with
  | zero => rfl
  | succ w ih => simp [leBytes, ih]

theorem ofLe_leBytes (w n : Nat) : ofLe (leBytes w n) = n % 256 ^ w := by
  induction w generalizing n with
  | zero => simp [leBytes, ofLe, Nat.mod_one]
  | succ w ih =>
    simp only [leBytes, ofLe, ih]
    rw [pow_succ', Nat.mod_mul]

theorem Buf.ofList_append {n : Nat} (b : Buf n) (rest : List Byte) :
    Buf.ofList n (b.val ++ rest) = b := by
  apply Subtype.ext
  have h := b.property
  simp only [Buf.ofList]
  rw [List.take_append_of_le_length (by omega), List.take_of_length_le (by omega)]
  have : n - (b.val ++ rest).length = 0 := by
    rw [List.length_append]; omega
  rw [this]
  simp

theorem Buf.drop_append {n : Nat} (b : Buf n) (rest : List Byte) :
    (b.val ++ rest).drop n = rest := by
  have h := b.property
  rw [List.drop_append_of_le_length (by omega), List.drop_of_length_le (by omega)]
  rfl

theorem u64OfBytes_le64 (x : U64) (rest : List Byte) : u64OfBytes (le64 x ++ rest) = x := by
  apply Fin.ext
  have hlen : (le64 x).length = 8 := leBytes_length 8 x.val
  simp only [u64OfBytes]
  rw [List.take_append_of_le_length (by omega), List.take_of_length_le (by omega)]
  simp only [le64, ofLe_leBytes]
  have := x.isLt
  omega

theorem drop_le64_append (x : U64) (rest : List Byte) : (le64 x ++ rest).drop 8 = rest := by
  have hlen : (le64 x).length = 8 := leBytes_length 8 x.val
  rw [List.drop_append_of_le_length (by omega), List.drop_of_length_le (by omega)]
  rfl

theorem entry_toBytes_length (e : AccountEntry) :
    e.toBytes.length = sizeof_AccountEntry := by
  have h1 := e.name.property
  have h2 := e.category.property
  have h3 := e.username.property
  have h4 := e.password.property
  have h5 := e.url.property
  have h6 := e.ssh_key_path.property
  have h7 := e.notes.property
  have h8 : (le64 e.created_at).length = 8 := leBytes_length 8 _
  have h9 : (le64 e.updated_at).length = 8 := leBytes_length 8 _
  simp only [AccountEntry.toBytes, List.length_append, h1, h2, h3, h4, h5, h6, h7, h8, h9]
  rfl

theorem entry_ofBytes_toBytes_append (e : AccountEntry) (rest : List Byte) :
    AccountEntry.ofBytes (e.toBytes ++ rest) = e := by
  obtain ⟨n, c, u, p, r, k, t, ca, ua⟩ := e
  have d1 : ∀ l : List Byte, (n.val ++ l).drop 64 = l := fun l => Buf.drop_append n l
  have d2 : ∀ l : List Byte, (c.val ++ l).drop 32 = l := fun l => Buf.drop_append c l
  have d3 : ∀ l : List Byte, (u.val ++ l).drop 64 = l := fun l => Buf.drop_append u l
  have d4 : ∀ l : List Byte, (p.val ++ l).drop 128 = l := fun l => Buf.drop_append p l
  have d5 : ∀ l : List Byte, (r.val ++ l).drop 256 = l := fun l => Buf.drop_append r l
  have d6 : ∀ l : List Byte, (k.val ++ l).drop 256 = l := fun l => Buf.drop_append k l
  have d7 : ∀ l : List Byte, (t.val ++ l).drop 512 = l := fun l => Buf.drop_append t l
  have s1 : ∀ l : List Byte, List.drop 96 l = List.drop 32 (List.drop 64 l) := by
    intro l; rw [List.drop_drop]
  have s2 : ∀ l : List Byte, List.drop 160 l = List.drop 64 (List.drop 96 l) := by
    intro l; rw [List.drop_drop]
  have s3 : ∀ l : List Byte, List.drop 288 l = List.drop 128 (List.drop 160 l) := by
    intro l; rw [List.drop_drop]
  have s4 : ∀ l : List Byte, List.drop 544 l = List.drop 256 (List.drop 288 l) := by
    intro l; rw [List.drop_drop]
  have s5 : ∀ l : List Byte, List.drop 800 l = List.drop 256 (List.drop 544 l) := by
    intro l; rw [List.drop_drop]
  have s6 : ∀ l : List Byte, List.drop 1312 l = List.drop 512 (List.drop 800 l) := by
    intro l; rw [List.drop_drop]
  have s7 : ∀ l : List Byte, List.drop 1320 l = List.drop 8 (List.drop 1312 l) := by
    intro l; rw [List.drop_drop]
  simp only [AccountEntry.ofBytes, AccountEntry.toBytes, List.append_assoc]
  rw [s7, s6, s5, s4, s3, s2, s1, d1, d2, d3, d4, d5, d6, d7, drop_le64_append]
  rw [Buf.ofList_append, Buf.ofList_append, Buf.ofList_append, Buf.ofList_append,
    Buf.ofList_append, Buf.ofList_append, Buf.ofList_append, u64OfBytes_le64, u64OfBytes_le64]

theorem entriesBytes_length (es : Nat → AccountEntry) (n : Nat) :
    (entriesBytes es n).length = sizeof_AccountEntry * n := by
  induction n with
  | zero => rfl
  | succ n ih =>
    rw [entriesBytes, List.length_append, ih, entry_toBytes_length]
    ring

theorem ofBytes_drop_entriesBytes (es : Nat → AccountEntry) (n i : Nat) (rest : List Byte)
    (h : i < n) :
    AccountEntry.ofBytes ((entriesBytes es n ++ rest).drop (sizeof_AccountEntry * i)) = es i := by
  induction n generalizing rest with
  | zero => omega
  | succ n ih =>
    rw [entriesBytes, List.append_assoc]
    by_cases hi : i < n
    · exact ih _ hi
    · have hin : i = n := by omega
      subst hin
      have hlen := entriesBytes_length es i
      rw [List.drop_append_of_le_length (by omega), List.drop_of_length_le (by omega)]
      exact entry_ofBytes_toBytes_append _ _

theorem entriesOfBytes_entriesBytes (es old : Nat → AccountEntry) (n i : Nat) (h : i < n) :
    entriesOfBytes (entriesBytes es n) n old i = es i := by
  have := ofBytes_drop_entriesBytes es n i [] h
  rw [List.append_nil] at this
  simp [entriesOfBytes, h, this]

theorem header_toBytes_length (h : VaultHeader) :
    h.toBytes.length = sizeof_VaultHeader := by
  have h1 := h.magic.property
  have h2 := h.salt.property
  have h3 := h.nonce.property
  have h4 := h.pad.property
  simp only [VaultHeader.toBytes, List.length_append, List.length_cons, leBytes_length,
    h1, h2, h3, h4]
  rfl

theorem header_ofBytes_toBytes_append (h : VaultHeader) (rest : List Byte)
    (hc : h.entry_count < 4294967296) :
    VaultHeader.ofBytes (h.toBytes ++ rest) = h := by
  obtain ⟨m, v, s, n, p, c⟩ := h
  have d1 : ∀ l : List Byte, (m.val ++ l).drop 4 = l := fun l => Buf.drop_append m l
  have d2 : ∀ l : List Byte, (s.val ++ l).drop 16 = l := fun l => Buf.drop_append s l
  have d3 : ∀ l : List Byte, (n.val ++ l).drop 24 = l := fun l => Buf.drop_append n l
  have d4 : ∀ l : List Byte, (p.val ++ l).drop 3 = l := fun l => Buf.drop_append p l
  have s1 : ∀ l : List Byte, List.drop 5 l = List.drop 1 (List.drop 4 l) := by
    intro l; rw [List.drop_drop]
  have s2 : ∀ l : List Byte, List.drop 21 l = List.drop 16 (List.drop 5 l) := by
    intro l; rw [List.drop_drop]
  have s3 : ∀ l : List Byte, List.drop 45 l = List.drop 24 (List.drop 21 l) := by
    intro l; rw [List.drop_drop]
  have s4 : ∀ l : List Byte, List.drop 48 l = List.drop 3 (List.drop 45 l) := by
    intro l; rw [List.drop_drop]
  have hle : (leBytes 4 (c % 4294967296)).length = 4 := leBytes_length _ _
  simp only [VaultHeader.ofBytes, VaultHeader.toBytes, List.append_assoc, List.cons_append]
  rw [s4, s3, s2, s1, d1]
  have d0 : ∀ l : List Byte, List.drop 1 (v :: l) = l := fun l => rfl
  simp only [d0, List.headD_cons]
  rw [d2, d3, d4, Buf.ofList_append, Buf.ofList_append, Buf.ofList_append, Buf.ofList_append]
  rw [List.take_append_of_le_length (by omega), List.take_of_length_le (by omega), ofLe_leBytes]
  have hc2 : c < 4294967296 := hc
  have : c % 4294967296 % 256 ^ 4 = c := by
    rw [Nat.mod_eq_of_lt hc2]
    exact Nat.mod_eq_of_lt hc2
  rw [this]

/-! ## Facts about the stand-in -/

theorem toyTag_length (n : Buf crypto_secretbox_NONCEBYTES) (k : Buf crypto_secretbox_KEYBYTES) :
    (toyTag n k).length = 16 := by
  have h1 := n.property
  have h2 := k.property
  simp only [toyTag, List.length_zipWith, List.length_take, h1, h2]
  rfl

theorem toySodium_seal_open (m : List Byte) (n : Buf crypto_secretbox_NONCEBYTES)
    (k : Buf crypto_secretbox_KEYBYTES) :
    ∃ c, toySodium.crypto_secretbox_easy m n k = some c ∧
      c.length = m.length + crypto_secretbox_MACBYTES ∧
      toySodium.crypto_secretbox_open_easy c n k = some m := by
  have hl := toyTag_length n k
  refine ⟨toyTag n k ++ m, rfl, ?_, ?_⟩
  · rw [List.length_append, hl, Nat.add_comm]
  · simp only [toySodium]
    rw [List.take_append_of_le_length (by omega), List.take_of_length_le (by omega),
      List.drop_append_of_le_length (by omega), List.drop_of_length_le (by omega)]
    simp

/-! ## Paths of `vault_load` and `vault_save` -/

theorem drop_header_append (h : VaultHeader) (body : List Byte) :
    (h.toBytes ++ body).drop sizeof_VaultHeader = body := by
  have hl := header_toBytes_length h
  rw [List.drop_append_of_le_length (by omega), List.drop_of_length_le (by omega)]
  rfl

/-- Loading a file made of a sound header declaring no record. -/
theorem vault_load_empty (sod : Sodium) (env : LoadEnv) (path pw : List Byte) (g0 : Vault)
    (h : VaultHeader) (body : List Byte) (key : Buf crypto_secretbox_KEYBYTES)
    (hmagic : h.magic = VAULT_MAGIC) (hver : h.version = VAULT_VERSION)
    (hkey : derive_key sod pw h.salt = (true, key)) (hc : h.entry_count = 0) :
    vault_load sod env (some (h.toBytes ++ body)) path pw g0 =
      ⟨true, { g0 with header := h, key := key, count := 0, vault_path := path.take 511,
                       unlocked := true, modified := false }⟩ := by
  have hl := header_toBytes_length h
  have hparse : VaultHeader.ofBytes (h.toBytes ++ body) = h :=
    header_ofBytes_toBytes_append h body (by omega)
  have hlen : ¬ (h.toBytes ++ body).length < sizeof_VaultHeader := by
    rw [List.length_append]; omega
  simp only [vault_load, hlen, if_false, hparse, hmagic, hver, hkey, hc, ne_eq, not_true_eq_false,
    Nat.not_lt_zero, Nat.lt_irrefl, Bool.true_eq_false]

/-- Loading a file made of a sound header declaring `n > 0` records and a
body whose leading box opens. -/
theorem vault_load_records (sod : Sodium) (env : LoadEnv) (path pw : List Byte) (g0 : Vault)
    (h : VaultHeader) (body pt : List Byte) (key : Buf crypto_secretbox_KEYBYTES)
    (hmagic : h.magic = VAULT_MAGIC) (hver : h.version = VAULT_VERSION)
    (hkey : derive_key sod pw h.salt = (true, key))
    (hpos : 0 < h.entry_count) (hc : h.entry_count ≤ MAX_ENTRIES)
    (ha1 : env.ciphertext_alloc = true) (ha2 : env.plaintext_alloc = true)
    (hbody : sizeof_AccountEntry * h.entry_count + crypto_secretbox_MACBYTES ≤ body.length)
    (hopen : sod.crypto_secretbox_open_easy
      (body.take (sizeof_AccountEntry * h.entry_count + crypto_secretbox_MACBYTES)) h.nonce key
        = some pt) :
    vault_load sod env (some (h.toBytes ++ body)) path pw g0 =
      ⟨true, { g0 with header := h, key := key, count := h.entry_count,
                       entries := entriesOfBytes pt h.entry_count g0.entries,
                       vault_path := path.take 511, unlocked := true, modified := false }⟩ := by
  have hl := header_toBytes_length h
  have hc2 : h.entry_count ≤ 256 := hc
  have hparse : VaultHeader.ofBytes (h.toBytes ++ body) = h :=
    header_ofBytes_toBytes_append h body (by omega)
  have hlen : ¬ (h.toBytes ++ body).length < sizeof_VaultHeader := by
    rw [List.length_append]; omega
  have hmax : ¬ MAX_ENTRIES < h.entry_count := by omega
  have hb : ¬ body.length < sizeof_AccountEntry * h.entry_count + crypto_secretbox_MACBYTES := by
    omega
  simp only [vault_load, hlen, if_false, hparse, hmagic, hver, hkey, ne_eq, not_true_eq_false,
    Bool.true_eq_false, hmax, hpos, if_true, ha1, ha2, drop_header_append, hb, hopen]

/-- The header `vault_save` writes: fresh nonce, current count. -/
theorem vault_save_writes (sod : Sodium) (env : SaveEnv) (g : Vault) (c : List Byte)
    (hunl : g.unlocked = true) (hmod : g.modified = true)
    (ha1 : env.plaintext_alloc = true) (ha2 : env.ciphertext_alloc = true)
    (hfopen : env.fopen_ok = true)
    (hbox : (if 0 < sizeof_AccountEntry * g.count
              then sod.crypto_secretbox_easy (entriesBytes g.entries g.count) env.nonce g.key
              else some env.ciphertext_init.val) = some c) :
    vault_save sod env g =
      ⟨true,
       { g with header := { g.header with nonce := env.nonce, entry_count := g.count },
                modified := false },
       some (({ g.header with nonce := env.nonce, entry_count := g.count } : VaultHeader).toBytes.take
              env.header_written ++ c.take env.ciphertext_written)⟩ := by
  simp only [vault_save, hunl, hmod, ha1, ha2, hfopen, Bool.true_eq_false, false_and, or_self,
    if_false, hbox]
  simp

/-- C1. Round trip. Let `g` be an unlocked, modified vault of the session of
master password `pw` (magic and version set, key derived from `pw` and the
header salt, `count` at most 256), let every system call of the save succeed
and its writes complete, and let sealing succeed with a box of the
documented length that opens under the key and nonce that sealed it. Then
`vault_save` returns true and writes a file, and `vault_load` of that file
with `pw`, into any vault `g0`, returns true, unlocks, and yields the same
`count` and the same record in every slot below `count`. -/
theorem vault_save_load_round_trip (sod : Sodium) (senv : SaveEnv) (lenv : LoadEnv)
    (pw path : List Byte) (g g0 : Vault)
    (hsess : Session sod pw g) (hmod : g.modified = true)
    (hseal : ∀ m n k, ∃ c, sod.crypto_secretbox_easy m n k = some c ∧
      c.length = m.length + crypto_secretbox_MACBYTES ∧
      sod.crypto_secretbox_open_easy c n k = some m)
    (hs1 : senv.plaintext_alloc = true) (hs2 : senv.ciphertext_alloc = true)
    (hfopen : senv.fopen_ok = true)
    (hhw : sizeof_VaultHeader ≤ senv.header_written)
    (hcw : sizeof_AccountEntry * g.count + crypto_secretbox_MACBYTES ≤ senv.ciphertext_written)
    (hl1 : lenv.ciphertext_alloc = true) (hl2 : lenv.plaintext_alloc = true) :
    (vault_save sod senv g).ret = true ∧
    ∃ file, (vault_save sod senv g).file = some file ∧
      (vault_load sod lenv (some file) path pw g0).ret = true ∧
      (vault_load sod lenv (some file) path pw g0).vault.unlocked = true ∧
      (vault_load sod lenv (some file) path pw g0).vault.count = g.count ∧
      ∀ i, i < g.count →
        (vault_load sod lenv (some file) path pw g0).vault.entries i = g.entries i := by
  obtain ⟨hunl, hmagic, hver, hkey, hcount⟩ := hsess
  have hcount2 : g.count ≤ 256 := hcount
  have hhl :=
    header_toBytes_length { g.header with nonce := senv.nonce, entry_count := g.count }
  have hhw2 : 52 ≤ senv.header_written := hhw
  have hcw2 : 1328 * g.count + 16 ≤ senv.ciphertext_written := hcw
  by_cases hpos : 0 < g.count
  · obtain ⟨c, hc, hclen, hopen⟩ := hseal (entriesBytes g.entries g.count) senv.nonce g.key
    have hclen2 : c.length = 1328 * g.count + 16 := by
      rw [hclen, entriesBytes_length]
    have hpl : 0 < sizeof_AccountEntry * g.count := Nat.mul_pos (by decide) hpos
    have hsave := vault_save_writes sod senv g c hunl hmod hs1 hs2 hfopen (by rw [if_pos hpl]; exact hc)
    rw [List.take_of_length_le (by omega), List.take_of_length_le (by omega)] at hsave
    rw [hsave]
    refine ⟨rfl, _, rfl, ?_⟩
    have hload := vault_load_records sod lenv path pw g0
      { g.header with nonce := senv.nonce, entry_count := g.count } c
      (entriesBytes g.entries g.count) g.key hmagic hver hkey hpos hcount hl1 hl2
      (by show 1328 * g.count + 16 ≤ c.length; omega)
      (by
        show sod.crypto_secretbox_open_easy (c.take (1328 * g.count + 16)) senv.nonce g.key = _
        rw [List.take_of_length_le (by omega)]; exact hopen)
    rw [hload]
    refine ⟨rfl, rfl, rfl, ?_⟩
    intro i hi
    exact entriesOfBytes_entriesBytes g.entries g0.entries g.count i hi
  · have hz : g.count = 0 := by omega
    have hpl : ¬ 0 < sizeof_AccountEntry * g.count := by rw [hz]; decide
    have hsave := vault_save_writes sod senv g senv.ciphertext_init.val hunl hmod hs1 hs2 hfopen
      (by rw [if_neg hpl])
    rw [hsave]
    refine ⟨rfl, _, rfl, ?_⟩
    rw [List.take_of_length_le (by omega)]
    have hload := vault_load_empty sod lenv path pw g0
      { g.header with nonce := senv.nonce, entry_count := g.count }
      (senv.ciphertext_init.val.take senv.ciphertext_written) g.key hmagic hver hkey hz
    rw [hload]
    refine ⟨rfl, rfl, hz.symm, ?_⟩
    intro i hi
    omega

/-- Instance of C1: one zero record saved under "p" with the stand-in
library and loaded into the startup vault. -/
theorem vault_save_load_round_trip_witness :
    Session toySodium pwP (sampleVault 1) ∧
    ((vault_save toySodium okSaveEnv (sampleVault 1)).ret = true ∧
    ∃ file, (vault_save toySodium okSaveEnv (sampleVault 1)).file = some file ∧
      (vault_load toySodium okLoadEnv (some file) [] pwP Vault.init).ret = true ∧
      (vault_load toySodium okLoadEnv (some file) [] pwP Vault.init).vault.unlocked = true ∧
      (vault_load toySodium okLoadEnv (some file) [] pwP Vault.init).vault.count
        = (sampleVault 1).count ∧
      ∀ i, i < (sampleVault 1).count →
        (vault_load toySodium okLoadEnv (some file) [] pwP Vault.init).vault.entries i
          = (sampleVault 1).entries i) :=
  ⟨⟨rfl, rfl, rfl, rfl, by decide⟩,
   vault_save_load_round_trip toySodium okSaveEnv okLoadEnv pwP [] (sampleVault 1) Vault.init
    ⟨rfl, rfl, rfl, rfl, by decide⟩ rfl toySodium_seal_open rfl rfl rfl (by decide) (by decide)
    rfl rfl⟩

/-- What a successful `vault_load` has checked. -/
theorem vault_load_ret_true (sod : Sodium) (env : LoadEnv) (file : Option (List Byte))
    (path pw : List Byte) (g0 : Vault) (hret : (vault_load sod env file path pw g0).ret = true) :
    ∃ bytes, file = some bytes ∧ sizeof_VaultHeader ≤ bytes.length ∧
      (VaultHeader.ofBytes bytes).magic = VAULT_MAGIC ∧
      (VaultHeader.ofBytes bytes).version = VAULT_VERSION ∧
      (derive_key sod pw (VaultHeader.ofBytes bytes).salt).1 = true ∧
      (VaultHeader.ofBytes bytes).entry_count ≤ MAX_ENTRIES ∧
      (0 < (VaultHeader.ofBytes bytes).entry_count →
        env.ciphertext_alloc = true ∧ env.plaintext_alloc = true ∧
        sizeof_AccountEntry * (VaultHeader.ofBytes bytes).entry_count + crypto_secretbox_MACBYTES
          ≤ (bytes.drop sizeof_VaultHeader).length ∧
        ∃ pt, sod.crypto_secretbox_open_easy
          ((bytes.drop sizeof_VaultHeader).take
            (sizeof_AccountEntry * (VaultHeader.ofBytes bytes).entry_count
              + crypto_secretbox_MACBYTES))
          (VaultHeader.ofBytes bytes).nonce
          (derive_key sod pw (VaultHeader.ofBytes bytes).salt).2 = some pt) := by
  cases file with
  | none => simp [vault_load] at hret
  | some bytes =>
    refine ⟨bytes, rfl, ?_⟩
    by_cases h1 : bytes.length < sizeof_VaultHeader
    · simp [vault_load, h1] at hret
    by_cases h2 : (VaultHeader.ofBytes bytes).magic = VAULT_MAGIC
    swap
    · simp [vault_load, h1, h2] at hret
    by_cases h3 : (VaultHeader.ofBytes bytes).version = VAULT_VERSION
    swap
    · simp [vault_load, h1, h2, h3] at hret
    by_cases h4 : (derive_key sod pw (VaultHeader.ofBytes bytes).salt).1 = true
    swap
    · simp [vault_load, h1, h2, h3, h4] at hret
    by_cases h5 : MAX_ENTRIES < (VaultHeader.ofBytes bytes).entry_count
    · simp [vault_load, h1, h2, h3, h4, h5] at hret
    refine ⟨by omega, h2, h3, h4, by omega, ?_⟩
    intro hpos
    by_cases h6 : env.ciphertext_alloc = true
    swap
    · simp [vault_load, h1, h2, h3, h4, h5, hpos, h6] at hret
    by_cases h7 : (bytes.drop sizeof_VaultHeader).length <
        sizeof_AccountEntry * (VaultHeader.ofBytes bytes).entry_count + crypto_secretbox_MACBYTES
    · simp only [List.length_drop] at h7
      simp [vault_load, h1, h2, h3, h4, h5, hpos, h6, h7] at hret
    by_cases h8 : env.plaintext_alloc = true
    swap
    · simp only [List.length_drop] at h7
      simp [vault_load, h1, h2, h3, h4, h5, hpos, h6, h7, h8] at hret
    refine ⟨h6, h8, by omega, ?_⟩
    cases h9 : sod.crypto_secretbox_open_easy
          ((bytes.drop sizeof_VaultHeader).take
            (sizeof_AccountEntry * (VaultHeader.ofBytes bytes).entry_count
              + crypto_secretbox_MACBYTES))
          (VaultHeader.ofBytes bytes).nonce
          (derive_key sod pw (VaultHeader.ofBytes bytes).salt).2 with
    | some pt => exact ⟨pt, rfl⟩
    | none =>
      simp only [List.length_drop] at h7
      simp [vault_load, h1, h2, h3, h4, h5, hpos, h6, h7, h8, h9] at hret

/-- A failing `vault_load` writes neither a record slot nor the state flags
nor the path. -/
theorem vault_load_fail_frame (sod : Sodium) (env : LoadEnv) (file : Option (List Byte))
    (path pw : List Byte) (g0 : Vault) (hret : (vault_load sod env file path pw g0).ret = false) :
    (vault_load sod env file path pw g0).vault.entries = g0.entries ∧
    (vault_load sod env file path pw g0).vault.unlocked = g0.unlocked ∧
    (vault_load sod env file path pw g0).vault.modified = g0.modified ∧
    (vault_load sod env file path pw g0).vault.vault_path = g0.vault_path := by
  revert hret
  unfold vault_load
  cases file with
  | none => intro _; exact ⟨rfl, rfl, rfl, rfl⟩
  | some bytes =>
    simp only
    split_ifs <;> try (intro _; exact ⟨rfl, rfl, rfl, rfl⟩)
    all_goals first
      | (intro h; simp at h)
      | (split <;> first | (intro _; exact ⟨rfl, rfl, rfl, rfl⟩) | (intro h; simp at h))

/-- Under the stand-in, a box sealed with the key of "p" never opens with the
key of "q" (zero salt). -/
theorem toySodium_rejects_other_key (m : List Byte) (n : Buf crypto_secretbox_NONCEBYTES)
    (c : List Byte)
    (hc : toySodium.crypto_secretbox_easy m n (toySodium.crypto_pwhash pwP (Buf.zero _)).2
      = some c) :
    toySodium.crypto_secretbox_open_easy c n (toySodium.crypto_pwhash pwQ (Buf.zero _)).2
      = none := by
  obtain ⟨nl, hn⟩ := n
  match nl, hn with
  | a :: t, hn =>
    simp only [toySodium, Option.some.injEq] at hc
    subst hc
    have hlen : (toyTag ⟨a :: t, hn⟩ (Buf.ofList _ (pwP ++ (Buf.zero crypto_pwhash_SALTBYTES).val))).length = 16 :=
      toyTag_length _ _
    have hne : toyTag ⟨a :: t, hn⟩ (Buf.ofList _ (pwP ++ (Buf.zero crypto_pwhash_SALTBYTES).val)) ≠
        toyTag ⟨a :: t, hn⟩ (Buf.ofList _ (pwQ ++ (Buf.zero crypto_pwhash_SALTBYTES).val)) := by
      intro h
      have h0 := congrArg (fun l => l.headD 0) h
      simp [toyTag, Buf.ofList, pwP, pwQ, Buf.zero] at h0
    simp only [toySodium]
    rw [List.take_append_of_le_length (by omega), List.take_of_length_le (by omega)]
    simp [hne]

/-- C2 as stated fails on the empty vault. The vault that creation persists
under "p" has no record, so `vault_save` seals nothing and `vault_load`
opens nothing: loading it with "q", whose derived key differs and under
which no box sealed with the key of "p" opens, returns true and unlocks. -/
theorem wrong_password_unlocks_empty_vault :
    Session toySodium pwP (sampleVault 0) ∧
    (derive_key toySodium pwQ (sampleVault 0).header.salt).2 ≠ (sampleVault 0).key ∧
    (∀ m n c, toySodium.crypto_secretbox_easy m n (sampleVault 0).key = some c →
      toySodium.crypto_secretbox_open_easy c n
        (derive_key toySodium pwQ (sampleVault 0).header.salt).2 = none) ∧
    (vault_save toySodium okSaveEnv (sampleVault 0)).ret = true ∧
    (vault_load toySodium okLoadEnv (vault_save toySodium okSaveEnv (sampleVault 0)).file
      [] pwQ Vault.init).ret = true ∧
    (vault_load toySodium okLoadEnv (vault_save toySodium okSaveEnv (sampleVault 0)).file
      [] pwQ Vault.init).vault.unlocked = true :=
  ⟨⟨rfl, rfl, rfl, rfl, by decide⟩, by decide, toySodium_rejects_other_key, by decide,
    by decide, by decide⟩

/-- C2, amended to containers that hold at least one record. Let `g` be an
unlocked, modified vault of the session of master password `pw` with
`count` between 1 and 256, saved with every system call succeeding, and let
`q` be a password whose derived key differs from the session key, the AEAD
taken as ideal (no box sealed under the session key opens under the key of
`q`). Then `vault_load` of the written file with `q`, into any vault `g0`,
returns false, leaves every record slot as it was and leaves `unlocked` as
it was. -/
theorem vault_load_wrong_password_fails (sod : Sodium) (senv : SaveEnv) (lenv : LoadEnv)
    (pw q path : List Byte) (g g0 : Vault)
    (hsess : Session sod pw g) (hmod : g.modified = true) (hpos : 0 < g.count)
    (hseal : ∀ m n k, ∃ c, sod.crypto_secretbox_easy m n k = some c ∧
      c.length = m.length + crypto_secretbox_MACBYTES)
    (hs1 : senv.plaintext_alloc = true) (hs2 : senv.ciphertext_alloc = true)
    (hfopen : senv.fopen_ok = true)
    (hhw : sizeof_VaultHeader ≤ senv.header_written)
    (hcw : sizeof_AccountEntry * g.count + crypto_secretbox_MACBYTES ≤ senv.ciphertext_written)
    (hne : (derive_key sod q g.header.salt).2 ≠ g.key)
    (hideal : (derive_key sod q g.header.salt).2 ≠ g.key →
      ∀ m n c, sod.crypto_secretbox_easy m n g.key = some c →
        sod.crypto_secretbox_open_easy c n (derive_key sod q g.header.salt).2 = none) :
    (vault_save sod senv g).ret = true ∧
    (vault_load sod lenv (vault_save sod senv g).file path q g0).ret = false ∧
    (vault_load sod lenv (vault_save sod senv g).file path q g0).vault.entries = g0.entries ∧
    (vault_load sod lenv (vault_save sod senv g).file path q g0).vault.unlocked
      = g0.unlocked := by
  obtain ⟨hunl, hmagic, hver, hkey, hcount⟩ := hsess
  have hcount2 : g.count ≤ 256 := hcount
  have hhl :=
    header_toBytes_length { g.header with nonce := senv.nonce, entry_count := g.count }
  have hhw2 : 52 ≤ senv.header_written := hhw
  have hcw2 : 1328 * g.count + 16 ≤ senv.ciphertext_written := hcw
  obtain ⟨c, hc, hclen⟩ := hseal (entriesBytes g.entries g.count) senv.nonce g.key
  have hclen2 : c.length = 1328 * g.count + 16 := by
    rw [hclen, entriesBytes_length]
  have hpl : 0 < sizeof_AccountEntry * g.count := Nat.mul_pos (by decide) hpos
  have hsave := vault_save_writes sod senv g c hunl hmod hs1 hs2 hfopen
    (by rw [if_pos hpl]; exact hc)
  rw [List.take_of_length_le (by omega), List.take_of_length_le (by omega)] at hsave
  rw [hsave]
  refine ⟨rfl, ?_⟩
  have hfalse : (vault_load sod lenv
      (some (({ g.header with nonce := senv.nonce, entry_count := g.count } : VaultHeader).toBytes
        ++ c)) path q g0).ret = false := by
    cases hr : (vault_load sod lenv
      (some (({ g.header with nonce := senv.nonce, entry_count := g.count } : VaultHeader).toBytes
        ++ c)) path q g0).ret with
    | false => rfl
    | true =>
      exfalso
      obtain ⟨bytes, hb, -, -, -, -, -, hbox⟩ := vault_load_ret_true sod lenv _ path q g0 hr
      cases hb
      rw [header_ofBytes_toBytes_append _ _ (by show g.count < 4294967296; omega),
        drop_header_append] at hbox
      obtain ⟨-, -, -, pt, hopen⟩ := hbox hpos
      have htake : List.take (sizeof_AccountEntry * g.count + crypto_secretbox_MACBYTES) c = c :=
        List.take_of_length_le (by show c.length ≤ 1328 * g.count + 16; omega)
      simp only [htake] at hopen
      rw [hideal hne _ _ _ hc] at hopen
      cases hopen
  exact ⟨hfalse, (vault_load_fail_frame sod lenv _ path q g0 hfalse).1,
    (vault_load_fail_frame sod lenv _ path q g0 hfalse).2.1⟩

/-- Instance of the amended C2: one record saved under "p", loaded with "q". -/
theorem vault_load_wrong_password_fails_witness :
    (vault_save toySodium okSaveEnv (sampleVault 1)).ret = true ∧
    (vault_load toySodium okLoadEnv (vault_save toySodium okSaveEnv (sampleVault 1)).file
      [] pwQ Vault.init).ret = false ∧
    (vault_load toySodium okLoadEnv (vault_save toySodium okSaveEnv (sampleVault 1)).file
      [] pwQ Vault.init).vault.entries = Vault.init.entries ∧
    (vault_load toySodium okLoadEnv (vault_save toySodium okSaveEnv (sampleVault 1)).file
      [] pwQ Vault.init).vault.unlocked = Vault.init.unlocked :=
  vault_load_wrong_password_fails toySodium okSaveEnv okLoadEnv pwP pwQ [] (sampleVault 1)
    Vault.init ⟨rfl, rfl, rfl, rfl, by decide⟩ rfl (by decide)
    (fun m n k => ⟨_, rfl, by
      show (toyTag n k ++ m).length = m.length + 16
      rw [List.length_append, toyTag_length, Nat.add_comm]⟩)
    rfl rfl rfl (by decide) (by decide) (by decide)
    (fun _ => toySodium_rejects_other_key)

set_option maxRecDepth 20000 in
/-- C3 as stated fails: the header is not authenticated. In the container
written for one record under "p", overwriting the record-count field with 0
gives a different file that `vault_load` accepts with the correct password:
no box is read, the load returns true, and the store it yields has count 0
where 1 was saved. -/
theorem tampered_count_field_loads :
    Session toySodium pwP (sampleVault 1) ∧
    (vault_save toySodium okSaveEnv (sampleVault 1)).ret = true ∧
    (sampleVault 1).count = 1 ∧
    countZeroed ≠ (vault_save toySodium okSaveEnv (sampleVault 1)).file ∧
    (vault_load toySodium okLoadEnv countZeroed [] pwP Vault.init).ret = true ∧
    (vault_load toySodium okLoadEnv countZeroed [] pwP Vault.init).vault.unlocked = true ∧
    (vault_load toySodium okLoadEnv countZeroed [] pwP Vault.init).vault.count = 0 :=
  ⟨⟨rfl, rfl, rfl, rfl, by decide⟩, by decide, rfl, by decide, by decide, by decide, by decide⟩

/-- C3, amended to what the authenticated box covers. Let `file` be the
container `vault_save` wrote for an unlocked, modified vault of the session
of `pw` with `count` between 1 and 256, and let `file2` be any altered file
whose declared record count is not 0 and which differs from `file` in the
magic tag, the version byte, the nonce, the record-count field, the box it
makes `vault_load` read, or in salt bytes that change the derived key. With
the AEAD taken as ideal (a box, nonce and key other than the sealed ones do
not open), `vault_load` of `file2` with the correct password returns false,
leaves every record slot as it was and leaves `unlocked` as it was. -/
theorem vault_load_tampered_fails (sod : Sodium) (senv : SaveEnv) (lenv : LoadEnv)
    (pw path : List Byte) (g g0 : Vault) (file file2 : List Byte)
    (hsess : Session sod pw g) (hmod : g.modified = true) (hpos : 0 < g.count)
    (hseal : ∀ m n k, ∃ c, sod.crypto_secretbox_easy m n k = some c ∧
      c.length = m.length + crypto_secretbox_MACBYTES)
    (hs1 : senv.plaintext_alloc = true) (hs2 : senv.ciphertext_alloc = true)
    (hfopen : senv.fopen_ok = true)
    (hhw : sizeof_VaultHeader ≤ senv.header_written)
    (hcw : sizeof_AccountEntry * g.count + crypto_secretbox_MACBYTES ≤ senv.ciphertext_written)
    (hfile : (vault_save sod senv g).file = some file)
    (hcount2 : (VaultHeader.ofBytes file2).entry_count ≠ 0)
    (halt : (VaultHeader.ofBytes file2).magic ≠ (VaultHeader.ofBytes file).magic ∨
      (VaultHeader.ofBytes file2).version ≠ (VaultHeader.ofBytes file).version ∨
      (VaultHeader.ofBytes file2).nonce ≠ (VaultHeader.ofBytes file).nonce ∨
      (VaultHeader.ofBytes file2).entry_count ≠ (VaultHeader.ofBytes file).entry_count ∨
      (derive_key sod pw (VaultHeader.ofBytes file2).salt).2 ≠ g.key ∨
      (file2.drop sizeof_VaultHeader).take
        (sizeof_AccountEntry * (VaultHeader.ofBytes file2).entry_count
          + crypto_secretbox_MACBYTES) ≠ file.drop sizeof_VaultHeader)
    (hideal :
      ((file2.drop sizeof_VaultHeader).take
          (sizeof_AccountEntry * (VaultHeader.ofBytes file2).entry_count
            + crypto_secretbox_MACBYTES),
        (VaultHeader.ofBytes file2).nonce,
        (derive_key sod pw (VaultHeader.ofBytes file2).salt).2)
        ≠ (file.drop sizeof_VaultHeader, (VaultHeader.ofBytes file).nonce, g.key) →
      sod.crypto_secretbox_open_easy
        ((file2.drop sizeof_VaultHeader).take
          (sizeof_AccountEntry * (VaultHeader.ofBytes file2).entry_count
            + crypto_secretbox_MACBYTES))
        (VaultHeader.ofBytes file2).nonce
        (derive_key sod pw (VaultHeader.ofBytes file2).salt).2 = none) :
    (vault_load sod lenv (some file2) path pw g0).ret = false ∧
    (vault_load sod lenv (some file2) path pw g0).vault.entries = g0.entries ∧
    (vault_load sod lenv (some file2) path pw g0).vault.unlocked = g0.unlocked := by
  obtain ⟨hunl, hmagic, hver, hkey, hcount⟩ := hsess
  have hcount3 : g.count ≤ 256 := hcount
  have hhl :=
    header_toBytes_length { g.header with nonce := senv.nonce, entry_count := g.count }
  have hhw2 : 52 ≤ senv.header_written := hhw
  have hcw2 : 1328 * g.count + 16 ≤ senv.ciphertext_written := hcw
  obtain ⟨c, hc, hclen⟩ := hseal (entriesBytes g.entries g.count) senv.nonce g.key
  have hclen2 : c.length = 1328 * g.count + 16 := by
    rw [hclen, entriesBytes_length]
  have hpl : 0 < sizeof_AccountEntry * g.count := Nat.mul_pos (by decide) hpos
  have hsave := vault_save_writes sod senv g c hunl hmod hs1 hs2 hfopen
    (by rw [if_pos hpl]; exact hc)
  rw [List.take_of_length_le (by omega), List.take_of_length_le (by omega)] at hsave
  rw [hsave] at hfile
  simp only [Option.some.injEq] at hfile
  subst hfile
  rw [header_ofBytes_toBytes_append _ _ (by show g.count < 4294967296; omega),
    drop_header_append] at halt hideal
  simp only at halt hideal
  have hfalse : (vault_load sod lenv (some file2) path pw g0).ret = false := by
    cases hr : (vault_load sod lenv (some file2) path pw g0).ret with
    | false => rfl
    | true =>
      exfalso
      obtain ⟨bytes, hb, -, hm, hv, -, -, hbox⟩ := vault_load_ret_true sod lenv _ path pw g0 hr
      cases hb
      obtain ⟨-, -, hblen, pt, hopen⟩ := hbox (Nat.pos_of_ne_zero hcount2)
      by_cases htriple :
        ((file2.drop sizeof_VaultHeader).take
            (sizeof_AccountEntry * (VaultHeader.ofBytes file2).entry_count
              + crypto_secretbox_MACBYTES),
          (VaultHeader.ofBytes file2).nonce,
          (derive_key sod pw (VaultHeader.ofBytes file2).salt).2)
          = (c, senv.nonce, g.key)
      · simp only [Prod.mk.injEq] at htriple
        obtain ⟨hbox2, hnonce2, hkey2⟩ := htriple
        have hl2 := congrArg List.length hbox2
        rw [List.length_take, hclen2] at hl2
        have hblen2 : 1328 * (VaultHeader.ofBytes file2).entry_count + 16
            ≤ (file2.drop 52).length := hblen
        have hl3 : min (1328 * (VaultHeader.ofBytes file2).entry_count + 16)
            (file2.drop 52).length = 1328 * g.count + 16 := hl2
        have hceq : (VaultHeader.ofBytes file2).entry_count = g.count := by omega
        rcases halt with h | h | h | h | h | h
        · exact h (hm.trans hmagic.symm)
        · exact h (hv.trans hver.symm)
        · exact h hnonce2
        · exact h hceq
        · exact h hkey2
        · exact h hbox2
      · rw [hideal htriple] at hopen
        cases hopen
  exact ⟨hfalse, (vault_load_fail_frame sod lenv _ path pw g0 hfalse).1,
    (vault_load_fail_frame sod lenv _ path pw g0 hfalse).2.1⟩

set_option maxRecDepth 20000 in
/-- Instance of the amended C3: the container of one record saved under "p",
with the first tag byte overwritten, loaded with "p". -/
theorem vault_load_tampered_fails_witness :
    (vault_load toySodium okLoadEnv (some tagDamaged) [] pwP Vault.init).ret = false ∧
    (vault_load toySodium okLoadEnv (some tagDamaged) [] pwP Vault.init).vault.entries
      = Vault.init.entries ∧
    (vault_load toySodium okLoadEnv (some tagDamaged) [] pwP Vault.init).vault.unlocked
      = Vault.init.unlocked :=
  vault_load_tampered_fails toySodium okSaveEnv okLoadEnv pwP [] (sampleVault 1) Vault.init
    ((vault_save toySodium okSaveEnv (sampleVault 1)).file.getD []) tagDamaged
    ⟨rfl, rfl, rfl, rfl, by decide⟩ rfl (by decide)
    (fun m n k => ⟨_, rfl, by
      show (toyTag n k ++ m).length = m.length + 16
      rw [List.length_append, toyTag_length, Nat.add_comm]⟩)
    rfl rfl rfl (by decide) (by decide) rfl (by decide)
    (Or.inr (Or.inr (Or.inr (Or.inr (Or.inr (by decide))))))
    (fun _ => by decide)

set_option maxRecDepth 20000 in
/-- C4 fails on the code: `vault_load` assigns `g_vault.count` from the header
before it validates it and no failure path restores it. Loading the 52-byte
file that declares 257 records into the startup vault (count 0) returns
false and leaves count 257; loading a one-record container with the wrong
password returns false and leaves count 1. The record slots are untouched
in both. -/
theorem vault_load_failure_changes_count :
    Vault.init.count = 0 ∧
    (vault_load toySodium okLoadEnv (some oversizedFile) [] pwP Vault.init).ret = false ∧
    (vault_load toySodium okLoadEnv (some oversizedFile) [] pwP Vault.init).vault.count = 257 ∧
    (vault_load toySodium okLoadEnv (vault_save toySodium okSaveEnv (sampleVault 1)).file
      [] pwQ Vault.init).ret = false ∧
    (vault_load toySodium okLoadEnv (vault_save toySodium okSaveEnv (sampleVault 1)).file
      [] pwQ Vault.init).vault.count = 1 :=
  ⟨rfl, by decide, by decide, by decide, by decide⟩

/-- The key buffer after a failing `vault_load` that started with a zero key,
given that a failing `crypto_pwhash` leaves its output zeroed. -/
theorem vault_load_fail_key (sod : Sodium) (env : LoadEnv) (file : Option (List Byte))
    (path pw : List Byte) (g0 : Vault) (hkey0 : g0.key = Buf.zero _)
    (hres : ∀ p s, (sod.crypto_pwhash p s).1 = false → (sod.crypto_pwhash p s).2 = Buf.zero _)
    (hret : (vault_load sod env file path pw g0).ret = false) :
    (vault_load sod env file path pw g0).vault.key = Buf.zero _ := by
  revert hret
  unfold vault_load
  cases file with
  | none => intro _; exact hkey0
  | some bytes =>
    simp only
    split_ifs with h1 h2 h3 h4 <;> try (intro _; first | exact hkey0 | rfl)
    · intro _
      exact hres _ _ h4
    all_goals first
      | (intro h; simp at h)
      | (split <;> first | (intro _; rfl) | (intro h; simp at h))

/-- The key buffer after a failing `vault_load` that started with a zero key:
zero, unless the call failed in the key derivation, in which case it holds
what `crypto_pwhash` left. -/
theorem vault_load_fail_key_cases (sod : Sodium) (env : LoadEnv) (file : Option (List Byte))
    (path pw : List Byte) (g0 : Vault) (hkey0 : g0.key = Buf.zero _)
    (hret : (vault_load sod env file path pw g0).ret = false) :
    (vault_load sod env file path pw g0).vault.key = Buf.zero _ ∨
    ∃ bytes, file = some bytes ∧ sizeof_VaultHeader ≤ bytes.length ∧
      (VaultHeader.ofBytes bytes).magic = VAULT_MAGIC ∧
      (VaultHeader.ofBytes bytes).version = VAULT_VERSION ∧
      (derive_key sod pw (VaultHeader.ofBytes bytes).salt).1 = false ∧
      (vault_load sod env file path pw g0).vault.key
        = (derive_key sod pw (VaultHeader.ofBytes bytes).salt).2 := by
  cases file with
  | none => exact Or.inl hkey0
  | some bytes =>
    by_cases h1 : bytes.length < sizeof_VaultHeader
    · left
      simp only [vault_load, h1, if_true]
      exact hkey0
    by_cases h2 : (VaultHeader.ofBytes bytes).magic = VAULT_MAGIC
    swap
    · left
      simp only [vault_load, h1, if_false, ne_eq, h2, not_false_eq_true, if_true]
      exact hkey0
    by_cases h3 : (VaultHeader.ofBytes bytes).version = VAULT_VERSION
    swap
    · left
      simp only [vault_load, h1, if_false, ne_eq, h2, not_true_eq_false, h3, not_false_eq_true,
        if_true]
      exact hkey0
    by_cases h4 : (derive_key sod pw (VaultHeader.ofBytes bytes).salt).1 = true
    · left
      revert hret
      unfold vault_load
      simp only [h1, if_false, ne_eq, h2, not_true_eq_false, h3, h4, Bool.true_eq_false]
      split_ifs <;> try (intro _; rfl)
      all_goals first
        | (intro h; simp at h)
        | (split <;> first | (intro _; rfl) | (intro h; simp at h))
    · right
      have h5 : (derive_key sod pw (VaultHeader.ofBytes bytes).salt).1 = false := by
        simpa using h4
      refine ⟨bytes, rfl, by omega, h2, h3, h5, ?_⟩
      simp only [vault_load, h1, if_false, ne_eq, h2, not_true_eq_false, h3, h5, if_true]

/-- C5 as stated fails on a file that declares no record: with a library in
which no box ever opens, `vault_load` of the empty container, from the
Locked startup vault (`unlocked` false, key all zero), returns true and sets
`unlocked`: no authenticated decryption has succeeded, none was attempted. -/
theorem unlocked_without_decryption :
    Vault.init.unlocked = false ∧
    Vault.init.key = Buf.zero _ ∧
    (∀ c n k, noOpenSodium.crypto_secretbox_open_easy c n k = none) ∧
    (vault_load noOpenSodium okLoadEnv (some emptyContainer) [] pwP Vault.init).ret = true ∧
    (vault_load noOpenSodium okLoadEnv (some emptyContainer) [] pwP Vault.init).vault.unlocked
      = true :=
  ⟨rfl, rfl, fun _ _ _ => rfl, by decide, by decide⟩

/-- C5, amended. Let the vault be Locked (`unlocked` false, key buffer all
zero). A `vault_load` that returns false leaves `unlocked` false, whatever
made it fail, and leaves the key buffer all zero unless the call failed in
the key derivation: that path has no wipe, and the buffer then holds what
the failed `crypto_pwhash` left in it, so it is zero there too when the
library clears its output on failure, as libsodium does. And `unlocked` is
true afterwards only if the call returned true, which it does only when the
file opened, the header was read, magic and version matched, the key
derivation succeeded, the declared count is at most 256 and, when that count
is not 0, both allocations succeeded, the body was long enough and the box
opened; for a declared count of 0 no box is opened. -/
theorem vault_load_failure_stays_locked (sod : Sodium) (env : LoadEnv)
    (file : Option (List Byte)) (path pw : List Byte) (g0 : Vault)
    (hlocked : g0.unlocked = false) (hkey0 : g0.key = Buf.zero _) :
    ((vault_load sod env file path pw g0).ret = false →
      (vault_load sod env file path pw g0).vault.unlocked = false ∧
      ((vault_load sod env file path pw g0).vault.key = Buf.zero _ ∨
        ∃ bytes, file = some bytes ∧ sizeof_VaultHeader ≤ bytes.length ∧
          (VaultHeader.ofBytes bytes).magic = VAULT_MAGIC ∧
          (VaultHeader.ofBytes bytes).version = VAULT_VERSION ∧
          (derive_key sod pw (VaultHeader.ofBytes bytes).salt).1 = false ∧
          (vault_load sod env file path pw g0).vault.key
            = (derive_key sod pw (VaultHeader.ofBytes bytes).salt).2)) ∧
    ((∀ p s, (sod.crypto_pwhash p s).1 = false → (sod.crypto_pwhash p s).2 = Buf.zero _) →
      (vault_load sod env file path pw g0).ret = false →
      (vault_load sod env file path pw g0).vault.key = Buf.zero _) ∧
    ((vault_load sod env file path pw g0).vault.unlocked = true →
      (vault_load sod env file path pw g0).ret = true ∧
      ∃ bytes, file = some bytes ∧ sizeof_VaultHeader ≤ bytes.length ∧
        (VaultHeader.ofBytes bytes).magic = VAULT_MAGIC ∧
        (VaultHeader.ofBytes bytes).version = VAULT_VERSION ∧
        (derive_key sod pw (VaultHeader.ofBytes bytes).salt).1 = true ∧
        (VaultHeader.ofBytes bytes).entry_count ≤ MAX_ENTRIES ∧
        (0 < (VaultHeader.ofBytes bytes).entry_count →
          env.ciphertext_alloc = true ∧ env.plaintext_alloc = true ∧
          sizeof_AccountEntry * (VaultHeader.ofBytes bytes).entry_count
            + crypto_secretbox_MACBYTES ≤ (bytes.drop sizeof_VaultHeader).length ∧
          ∃ pt, sod.crypto_secretbox_open_easy
            ((bytes.drop sizeof_VaultHeader).take
              (sizeof_AccountEntry * (VaultHeader.ofBytes bytes).entry_count
                + crypto_secretbox_MACBYTES))
            (VaultHeader.ofBytes bytes).nonce
            (derive_key sod pw (VaultHeader.ofBytes bytes).salt).2 = some pt)) := by
  refine ⟨?_, ?_, ?_⟩
  · intro hret
    refine ⟨?_, vault_load_fail_key_cases sod env file path pw g0 hkey0 hret⟩
    rw [(vault_load_fail_frame sod env file path pw g0 hret).2.1]
    exact hlocked
  · intro hres hret
    exact vault_load_fail_key sod env file path pw g0 hkey0 hres hret
  · intro hunl
    have hret : (vault_load sod env file path pw g0).ret = true := by
      cases hr : (vault_load sod env file path pw g0).ret with
      | true => rfl
      | false =>
        rw [(vault_load_fail_frame sod env file path pw g0 hr).2.1, hlocked] at hunl
        cases hunl
    exact ⟨hret, vault_load_ret_true sod env file path pw g0 hret⟩

/-- Instance of the amended C5 on the three kinds of failing path. The file
that declares 257 records fails after the derivation and the key derived for
"p" is wiped; with a library whose failing `crypto_pwhash` clears its output
the derivation failure leaves the key zero; with one that leaves 0xAA bytes
it leaves those bytes. -/
theorem vault_load_failure_stays_locked_witness :
    ((vault_load toySodium okLoadEnv (some oversizedFile) [] pwP Vault.init).vault.unlocked
        = false ∧
      (vault_load toySodium okLoadEnv (some oversizedFile) [] pwP Vault.init).vault.key
        = Buf.zero _) ∧
    (vault_load failingSodium okLoadEnv (some emptyContainer) [] pwP Vault.init).vault.key
      = Buf.zero _ ∧
    ((vault_load residueSodium okLoadEnv (some emptyContainer) [] pwP Vault.init).vault.unlocked
        = false ∧
      (vault_load residueSodium okLoadEnv (some emptyContainer) [] pwP Vault.init).vault.key
        = ⟨List.replicate 32 170, rfl⟩) :=
  ⟨⟨((vault_load_failure_stays_locked toySodium okLoadEnv (some oversizedFile) [] pwP Vault.init
        rfl rfl).1 (by decide)).1,
     (vault_load_failure_stays_locked toySodium okLoadEnv (some oversizedFile) [] pwP Vault.init
        rfl rfl).2.1 (fun _ _ h => by simp [toySodium] at h) (by decide)⟩,
   (vault_load_failure_stays_locked failingSodium okLoadEnv (some emptyContainer) [] pwP
      Vault.init rfl rfl).2.1 (fun _ _ _ => rfl) (by decide),
   ⟨((vault_load_failure_stays_locked residueSodium okLoadEnv (some emptyContainer) [] pwP
        Vault.init rfl rfl).1 (by decide)).1,
    by decide⟩⟩

/-- C6 fails on the code: `vault_save` checks `fopen` but not the two `fwrite`
calls. With the file opened and no byte of the header or the ciphertext
written, `vault_save` on an unlocked, modified vault leaves an empty file,
returns true and clears the modified flag. -/
theorem vault_save_ignores_failed_write :
    (sampleVault 1).unlocked = true ∧ (sampleVault 1).modified = true ∧
    (vault_save toySodium diskFullEnv (sampleVault 1)).file = some [] ∧
    (vault_save toySodium diskFullEnv (sampleVault 1)).ret = true ∧
    (vault_save toySodium diskFullEnv (sampleVault 1)).vault.modified = false :=
  ⟨rfl, rfl, by decide, by decide, by decide⟩

/-- C7. Lock always wipes. For every vault state and every outcome of the
save it may run, after `vault_lock` the key buffer is all zero, every record
slot is all zero, `count` is 0 and `unlocked` is false. The file effect of
`vault_lock` is that of `vault_save` applied to the vault as it was on
entry, before the wipe, when the modified flag is set (the save writes only
if that vault is also unlocked), and none otherwise; the header and the
modified flag are as that save left them. -/
theorem vault_lock_wipes (sod : Sodium) (env : SaveEnv) (g : Vault) :
    (vault_lock sod env g).1.key = Buf.zero _ ∧
    (vault_lock sod env g).1.entries = (fun _ => AccountEntry.zero) ∧
    (vault_lock sod env g).1.count = 0 ∧
    (vault_lock sod env g).1.unlocked = false ∧
    (vault_lock sod env g).2
      = (if g.modified = true then (vault_save sod env g).file else none) ∧
    (vault_lock sod env g).1.header
      = (if g.modified = true then (vault_save sod env g).vault.header else g.header) ∧
    (vault_lock sod env g).1.modified
      = (if g.modified = true then (vault_save sod env g).vault.modified else false) := by
  refine ⟨rfl, rfl, rfl, rfl, ?_, ?_, ?_⟩
  · unfold vault_lock
    by_cases h : g.modified = true <;> simp [h]
  · unfold vault_lock
    by_cases h : g.modified = true <;> simp [h]
  · unfold vault_lock
    by_cases h : g.modified = true
    · simp [h]
    · have h2 : g.modified = false := by simpa using h
      simp [h2]

/-- Reading back a header image yields the header, with `entry_count` as the
`uint32_t` it is stored in. -/
theorem header_ofBytes_toBytes_mod (h : VaultHeader) (rest : List Byte) :
    VaultHeader.ofBytes (h.toBytes ++ rest)
      = { h with entry_count := h.entry_count % 4294967296 } := by
  have hb : h.toBytes
      = ({ h with entry_count := h.entry_count % 4294967296 } : VaultHeader).toBytes := by
    simp only [VaultHeader.toBytes, Nat.mod_mod]
  rw [hb]
  exact header_ofBytes_toBytes_append _ rest (Nat.mod_lt _ (by decide))

/-- What `vault_save` leaves alone, on every path. -/
theorem vault_save_frame (sod : Sodium) (env : SaveEnv) (g : Vault) :
    (vault_save sod env g).vault.header.salt = g.header.salt ∧
    (vault_save sod env g).vault.header.magic = g.header.magic ∧
    (vault_save sod env g).vault.header.version = g.header.version ∧
    (vault_save sod env g).vault.key = g.key ∧
    (vault_save sod env g).vault.entries = g.entries ∧
    (vault_save sod env g).vault.count = g.count := by
  unfold vault_save
  simp only
  split_ifs <;> try exact ⟨rfl, rfl, rfl, rfl, rfl, rfl⟩
  all_goals (split <;> try exact ⟨rfl, rfl, rfl, rfl, rfl, rfl⟩)

/-- What a `vault_save` that opened the file has done. -/
theorem vault_save_file (sod : Sodium) (env : SaveEnv) (g : Vault) (file : List Byte)
    (hfile : (vault_save sod env g).file = some file) :
    g.unlocked = true ∧ g.modified = true ∧
    (vault_save sod env g).ret = true ∧
    (vault_save sod env g).vault =
      { g with header := { g.header with nonce := env.nonce, entry_count := g.count },
               modified := false } ∧
    ∃ c, (if 0 < sizeof_AccountEntry * g.count
            then sod.crypto_secretbox_easy (entriesBytes g.entries g.count) env.nonce g.key
            else some env.ciphertext_init.val) = some c ∧
      file = ({ g.header with nonce := env.nonce, entry_count := g.count } : VaultHeader).toBytes.take
              env.header_written ++ c.take env.ciphertext_written := by
  by_cases h1 : g.unlocked = true
  swap
  · simp [vault_save, h1] at hfile
  by_cases h2 : g.modified = true
  swap
  · simp [vault_save, h1, h2] at hfile
  by_cases h3 : env.plaintext_alloc = false ∧ 0 < sizeof_AccountEntry * g.count
  · simp [vault_save, h1, h2, h3] at hfile
  by_cases h4 : env.ciphertext_alloc = false
  · simp [vault_save, h1, h2, h3, h4] at hfile
  cases h5 : (if 0 < sizeof_AccountEntry * g.count
            then sod.crypto_secretbox_easy (entriesBytes g.entries g.count) env.nonce g.key
            else some env.ciphertext_init.val) with
  | none =>
    simp only [vault_save, h1, h2, h3, h4, Bool.true_eq_false, or_self, if_false, false_and,
      h5] at hfile
    cases hfile
  | some c =>
    by_cases h6 : env.fopen_ok = false
    · simp only [vault_save, h1, h2, h3, h4, Bool.true_eq_false, or_self, if_false, false_and,
        h5, h6, if_true] at hfile
      cases hfile
    · simp only [vault_save, h1, h2, h3, h4, Bool.true_eq_false, or_self, if_false, false_and,
        h5, h6] at hfile ⊢
      simp only [Nat.add_pos_iff_pos_or_pos, Nat.zero_lt_succ, or_true, if_true,
        Option.some.injEq] at hfile
      exact ⟨trivial, trivial, trivial, trivial, c, rfl, hfile.symm⟩

/-- The salt and nonce fields of a file that starts with a complete header
image. -/
theorem header_fields_of_file (h : VaultHeader) (hw : Nat) (body : List Byte)
    (hhw : sizeof_VaultHeader ≤ hw) :
    (VaultHeader.ofBytes (h.toBytes.take hw ++ body)).salt = h.salt ∧
    (VaultHeader.ofBytes (h.toBytes.take hw ++ body)).nonce = h.nonce ∧
    (h.toBytes.take hw ++ body).drop sizeof_VaultHeader = body := by
  have hl := header_toBytes_length h
  rw [List.take_of_length_le (by omega), header_ofBytes_toBytes_mod, drop_header_append]
  exact ⟨rfl, rfl, rfl⟩

/-- C8. Salt stability and nonce regeneration. For every vault state and
every outcome of the system calls, `vault_save` leaves the header salt, the
magic, the version, the key, the record slots and `count` unchanged. Every
save that opens the file has first replaced the header nonce with the bytes
drawn from the random source; when its header write completes, the salt
field of the file is the salt of the vault, the nonce field of the file is
the drawn nonce, and, when there are records, what follows the header is
the box sealed under that same nonce and the vault key (as far as the
second write got). So any two saves in vault states that carry the same
salt write files with identical salt bytes. -/
theorem vault_save_salt_stable_nonce_fresh (sod : Sodium) (env : SaveEnv) (g : Vault) :
    ((vault_save sod env g).vault.header.salt = g.header.salt ∧
      (vault_save sod env g).vault.header.magic = g.header.magic ∧
      (vault_save sod env g).vault.header.version = g.header.version ∧
      (vault_save sod env g).vault.key = g.key ∧
      (vault_save sod env g).vault.entries = g.entries ∧
      (vault_save sod env g).vault.count = g.count) ∧
    (∀ file, (vault_save sod env g).file = some file →
      (vault_save sod env g).vault.header.nonce = env.nonce ∧
      (sizeof_VaultHeader ≤ env.header_written →
        (VaultHeader.ofBytes file).salt = g.header.salt ∧
        (VaultHeader.ofBytes file).nonce = env.nonce ∧
        (0 < g.count → ∃ c,
          sod.crypto_secretbox_easy (entriesBytes g.entries g.count) env.nonce g.key = some c ∧
          file.drop sizeof_VaultHeader = c.take env.ciphertext_written))) ∧
    (∀ env2 g2 file file2, g2.header.salt = (vault_save sod env g).vault.header.salt →
      (vault_save sod env g).file = some file → (vault_save sod env2 g2).file = some file2 →
      sizeof_VaultHeader ≤ env.header_written → sizeof_VaultHeader ≤ env2.header_written →
      (VaultHeader.ofBytes file2).salt = (VaultHeader.ofBytes file).salt) := by
  have key : ∀ (e : SaveEnv) (v : Vault) (f : List Byte), (vault_save sod e v).file = some f →
      (vault_save sod e v).vault.header.nonce = e.nonce ∧
      (sizeof_VaultHeader ≤ e.header_written →
        (VaultHeader.ofBytes f).salt = v.header.salt ∧
        (VaultHeader.ofBytes f).nonce = e.nonce ∧
        (0 < v.count → ∃ c,
          sod.crypto_secretbox_easy (entriesBytes v.entries v.count) e.nonce v.key = some c ∧
          f.drop sizeof_VaultHeader = c.take e.ciphertext_written)) := by
    intro e v f hf
    obtain ⟨-, -, -, hv, c, hc, hfeq⟩ := vault_save_file sod e v f hf
    refine ⟨by rw [hv], ?_⟩
    intro hhw
    obtain ⟨h1, h2, h3⟩ := header_fields_of_file
      { v.header with nonce := e.nonce, entry_count := v.count } e.header_written
      (c.take e.ciphertext_written) hhw
    rw [hfeq]
    refine ⟨h1, h2, ?_⟩
    intro hpos
    have hpl : 0 < sizeof_AccountEntry * v.count := Nat.mul_pos (by decide) hpos
    rw [if_pos hpl] at hc
    exact ⟨c, hc, h3⟩
  refine ⟨vault_save_frame sod env g, key env g, ?_⟩
  intro env2 g2 file file2 hsalt hf hf2 hw hw2
  rw [((key env g file hf).2 hw).1, ((key env2 g2 file2 hf2).2 hw2).1, hsalt,
    (vault_save_frame sod env g).1]

set_option maxRecDepth 20000 in
/-- Instance of C8: the save of one record under "p", and a second save of
the vault it leaves once it is marked modified again. -/
theorem vault_save_salt_stable_nonce_fresh_witness :
    (VaultHeader.ofBytes ((vault_save toySodium okSaveEnv (sampleVault 1)).file.getD [])).salt
      = (sampleVault 1).header.salt ∧
    (VaultHeader.ofBytes ((vault_save toySodium okSaveEnv (sampleVault 1)).file.getD [])).nonce
      = okSaveEnv.nonce ∧
    (VaultHeader.ofBytes ((vault_save toySodium okSaveEnv
        { (vault_save toySodium okSaveEnv (sampleVault 1)).vault with modified := true }).file.getD
          [])).salt
      = (VaultHeader.ofBytes
          ((vault_save toySodium okSaveEnv (sampleVault 1)).file.getD [])).salt :=
  ⟨(((vault_save_salt_stable_nonce_fresh toySodium okSaveEnv (sampleVault 1)).2.1 _ rfl).2
      (by decide)).1,
   (((vault_save_salt_stable_nonce_fresh toySodium okSaveEnv (sampleVault 1)).2.1 _ rfl).2
      (by decide)).2.1,
   (vault_save_salt_stable_nonce_fresh toySodium okSaveEnv (sampleVault 1)).2.2
      okSaveEnv
      { (vault_save toySodium okSaveEnv (sampleVault 1)).vault with modified := true }
      _ _ rfl rfl rfl (by decide) (by decide)⟩

/-- C9. Header validation. For every file contents, password and prior vault,
if the header read from the file has a magic tag other than "ACCT", or a
version other than 1, or declares more than 256 records, then `vault_load`
returns false and no record slot is written. No decryption is attempted: the
outcome is the same with any other `crypto_secretbox_open_easy` (any library
that derives keys alike). For a bad magic or version no key is derived: the
outcome is the same with any library at all, and the key buffer keeps its
contents. -/
theorem vault_load_header_validation (sod : Sodium) (env : LoadEnv)
    (bytes path pw : List Byte) (g0 : Vault)
    (hbad : (VaultHeader.ofBytes bytes).magic ≠ VAULT_MAGIC ∨
      (VaultHeader.ofBytes bytes).version ≠ VAULT_VERSION ∨
      MAX_ENTRIES < (VaultHeader.ofBytes bytes).entry_count) :
    (vault_load sod env (some bytes) path pw g0).ret = false ∧
    (vault_load sod env (some bytes) path pw g0).vault.entries = g0.entries ∧
    (∀ sod2 : Sodium, sod2.crypto_pwhash = sod.crypto_pwhash →
      vault_load sod2 env (some bytes) path pw g0 = vault_load sod env (some bytes) path pw g0) ∧
    ((VaultHeader.ofBytes bytes).magic ≠ VAULT_MAGIC ∨
        (VaultHeader.ofBytes bytes).version ≠ VAULT_VERSION →
      (∀ sod2 : Sodium,
        vault_load sod2 env (some bytes) path pw g0 = vault_load sod env (some bytes) path pw g0) ∧
      (vault_load sod env (some bytes) path pw g0).vault.key = g0.key) := by
  have hfalse : (vault_load sod env (some bytes) path pw g0).ret = false := by
    cases hr : (vault_load sod env (some bytes) path pw g0).ret with
    | false => rfl
    | true =>
      exfalso
      obtain ⟨b, hb, -, hm, hv, -, hc, -⟩ := vault_load_ret_true sod env _ path pw g0 hr
      cases hb
      rcases hbad with h | h | h
      · exact h hm
      · exact h hv
      · exact absurd hc (Nat.not_le.mpr h)
  refine ⟨hfalse, (vault_load_fail_frame sod env _ path pw g0 hfalse).1, ?_, ?_⟩
  · intro sod2 hpw
    by_cases h1 : bytes.length < sizeof_VaultHeader
    · simp [vault_load, h1]
    by_cases h2 : (VaultHeader.ofBytes bytes).magic = VAULT_MAGIC
    swap
    · simp [vault_load, h1, h2]
    by_cases h3 : (VaultHeader.ofBytes bytes).version = VAULT_VERSION
    swap
    · simp [vault_load, h1, h2, h3]
    have h5 : MAX_ENTRIES < (VaultHeader.ofBytes bytes).entry_count := by
      rcases hbad with h | h | h
      · exact absurd h2 h
      · exact absurd h3 h
      · exact h
    by_cases h4 : (sod.crypto_pwhash pw (VaultHeader.ofBytes bytes).salt).1 = true
    · simp [vault_load, derive_key, hpw, h1, h2, h3, h4, h5]
    · simp [vault_load, derive_key, hpw, h1, h2, h3, h4]
  · intro hmv
    by_cases h1 : bytes.length < sizeof_VaultHeader
    · simp [vault_load, h1]
    by_cases h2 : (VaultHeader.ofBytes bytes).magic = VAULT_MAGIC
    swap
    · simp [vault_load, h1, h2]
    have h3 : (VaultHeader.ofBytes bytes).version ≠ VAULT_VERSION := by
      rcases hmv with h | h
      · exact absurd h2 h
      · exact h
    simp [vault_load, h1, h2, h3]

/-- Instance of C9: the file whose magic tag reads "ACCU", loaded into the
startup vault, fails alike with the stand-in and with the library that can
do nothing. -/
theorem vault_load_header_validation_witness :
    (vault_load toySodium okLoadEnv (some badMagicFile) [] pwP Vault.init).ret = false ∧
    vault_load failingSodium okLoadEnv (some badMagicFile) [] pwP Vault.init
      = vault_load toySodium okLoadEnv (some badMagicFile) [] pwP Vault.init :=
  ⟨(vault_load_header_validation toySodium okLoadEnv badMagicFile [] pwP Vault.init
      (Or.inl (by decide))).1,
   ((vault_load_header_validation toySodium okLoadEnv badMagicFile [] pwP Vault.init
      (Or.inl (by decide))).2.2.2 (Or.inl (by decide))).1 failingSodium⟩

/-! ## Deleting a record -/

/-- The shifting loop of `cmd_delete`: slots `first .. first + k - 1` take the
contents of their right neighbour, every other slot keeps its own. -/
theorem shift_loop (es : Nat → AccountEntry) (first k j : Nat) :
    ((List.range' first k).foldl (fun es i => setEntry es i (es (i + 1))) es) j
      = if first ≤ j ∧ j < first + k then es (j + 1) else es j := by
  induction k generalizing es first with
  | zero =>
    have : ¬ (first ≤ j ∧ j < first + 0) := by omega
    rw [if_neg this]
    rfl
  | succ k ih =>
    rw [List.range'_succ, List.foldl_cons, ih]
    by_cases h1 : first + 1 ≤ j ∧ j < first + 1 + k
    · have h2 : first ≤ j ∧ j < first + (k + 1) := by omega
      have h3 : j + 1 ≠ first := by omega
      simp [h1, h2, setEntry, h3]
    · by_cases h4 : j = first
      · subst h4
        have h2 : j ≤ j ∧ j < j + (k + 1) := by omega
        simp [h1, h2, setEntry]
      · have h2 : ¬ (first ≤ j ∧ j < first + (k + 1)) := by omega
        simp [h1, h2, setEntry, h4]

/-- The state a confirmed, in-range `cmd_delete` produces. -/
theorem cmd_delete_confirmed (idx : Int) (buf : List Byte) (g : Vault)
    (hcount : g.count ≤ MAX_ENTRIES) (h1 : 1 ≤ idx) (h2 : idx ≤ (g.count : Int))
    (hyes : trim buf = [121, 101, 115]) :
    cmd_delete idx buf g =
      { g with
        entries := fun j =>
          if j = g.count - 1 then AccountEntry.zero
          else if (idx - 1).toNat ≤ j ∧ j < g.count - 1 then g.entries (j + 1) else g.entries j
        count := g.count - 1
        modified := true } := by
  have hc : g.count ≤ 256 := hcount
  have hcast : int_of_u32 g.count = (g.count : Int) := by
    unfold int_of_u32
    have hm : g.count % 4294967296 = g.count := Nat.mod_eq_of_lt (by omega)
    rw [hm]
    have : g.count < 2147483648 := by omega
    simp [this]
  have hguard : ¬ (idx < 1 ∨ idx > int_of_u32 g.count) := by
    rw [hcast]; omega
  have hfirst : u32_of_int (idx - 1) = (idx - 1).toNat := by
    unfold u32_of_int
    have : (idx - 1) % 4294967296 = idx - 1 := Int.emod_eq_of_lt (by omega) (by omega)
    rw [this]
  have hlast : u32_pred g.count = g.count - 1 := by
    unfold u32_pred
    omega
  have hspan : (idx - 1).toNat + (g.count - 1 - (idx - 1).toNat) = g.count - 1 := by omega
  have hyes2 : ¬ trim buf ≠ [121, 101, 115] := fun h => h hyes
  unfold cmd_delete
  rw [if_neg hguard, if_neg hyes2]
  dsimp only
  rewrite [hfirst]
  generalize u32_pred g.count = last at hlast ⊢
  subst hlast
  congr 1
  funext j
  simp only [setEntry, shift_loop, hspan]

/-- The cast `(int)count` for a count within capacity. -/
theorem int_of_u32_small (c : Nat) (hc : c ≤ MAX_ENTRIES) : int_of_u32 c = (c : Int) := by
  have hc2 : c ≤ 256 := hc
  unfold int_of_u32
  have hm : c % 4294967296 = c := Nat.mod_eq_of_lt (by omega)
  rw [hm]
  have : c < 2147483648 := by omega
  simp [this]

/-- C10. Order-preserving remove. Let the store hold `n = count` records,
`n` at most 256. If `1 ≤ idx ≤ n` and the answer, trimmed, is "yes", then
after `cmd_delete` the count is `n - 1`, the live records are the old live
records with the one at position `idx - 1` removed (every slot below
`idx - 1` keeps its record, every slot from `idx - 1` to `n - 2` holds the
record of its right neighbour), slot `n - 1` is all zero, the slots from `n`
on, the header, the key and `unlocked` are untouched, and the modified flag
is set. If `idx < 1` or `idx > n` or the answer is not "yes", the vault is
unchanged: records, count and modified flag. -/
theorem cmd_delete_order_preserving (idx : Int) (buf : List Byte) (g : Vault)
    (hcount : g.count ≤ MAX_ENTRIES) :
    (1 ≤ idx → idx ≤ (g.count : Int) → trim buf = [121, 101, 115] →
      (cmd_delete idx buf g).count = g.count - 1 ∧
      (cmd_delete idx buf g).records = g.records.eraseIdx (idx - 1).toNat ∧
      (∀ j, j < (idx - 1).toNat → (cmd_delete idx buf g).entries j = g.entries j) ∧
      (∀ j, (idx - 1).toNat ≤ j → j < g.count - 1 →
        (cmd_delete idx buf g).entries j = g.entries (j + 1)) ∧
      (cmd_delete idx buf g).entries (g.count - 1) = AccountEntry.zero ∧
      (∀ j, g.count ≤ j → (cmd_delete idx buf g).entries j = g.entries j) ∧
      (cmd_delete idx buf g).modified = true ∧
      (cmd_delete idx buf g).header = g.header ∧
      (cmd_delete idx buf g).key = g.key ∧
      (cmd_delete idx buf g).unlocked = g.unlocked) ∧
    (idx < 1 ∨ (g.count : Int) < idx ∨ trim buf ≠ [121, 101, 115] →
      cmd_delete idx buf g = g) := by
  constructor
  · intro h1 h2 hyes
    rw [cmd_delete_confirmed idx buf g hcount h1 h2 hyes]
    have hpos : 0 < g.count := by omega
    have hidx : (idx - 1).toNat < g.count := by omega
    generalize (idx - 1).toNat = k at hidx ⊢
    refine ⟨rfl, ?_, ?_, ?_, ?_, ?_, rfl, rfl, rfl, rfl⟩
    · apply List.ext_getElem
      · simp only [Vault.records, List.length_map, List.length_range]
        rw [List.length_eraseIdx_of_lt (by simpa using hidx)]
        simp
      · intro j hj1 hj2
        simp only [Vault.records, List.length_map, List.length_range] at hj1
        rw [List.getElem_eraseIdx]
        simp only [Vault.records, List.getElem_map, List.getElem_range]
        have hne : j ≠ g.count - 1 := by omega
        by_cases hlt : j < k
        · have h3 : ¬ (k ≤ j ∧ j < g.count - 1) := by omega
          simp [hne, hlt, h3]
        · have h3 : k ≤ j ∧ j < g.count - 1 := by omega
          simp [hne, hlt, h3]
    · intro j hj
      have hne : j ≠ g.count - 1 := by omega
      have h3 : ¬ (k ≤ j ∧ j < g.count - 1) := by omega
      simp [hne, h3]
    · intro j hj1 hj2
      have hne : j ≠ g.count - 1 := by omega
      simp [hne, hj1, hj2]
    · simp
    · intro j hj
      have hne : j ≠ g.count - 1 := by omega
      have h3 : ¬ (k ≤ j ∧ j < g.count - 1) := by omega
      simp [hne, h3]
  · intro h
    unfold cmd_delete
    rw [int_of_u32_small g.count hcount]
    by_cases hg : idx < 1 ∨ idx > (g.count : Int)
    · rw [if_pos hg]
    · have hn : trim buf ≠ [121, 101, 115] := by
        rcases h with h | h | h
        · exact absurd (Or.inl h) hg
        · exact absurd (Or.inr h) hg
        · exact h
      rw [if_neg hg, if_pos hn]

/-- Instance of C10: the records A, B, C, entry number 2 deleted with the
answer "yes". -/
theorem cmd_delete_order_preserving_witness :
    (cmd_delete 2 answerYes abcVault).count = abcVault.count - 1 ∧
    (cmd_delete 2 answerYes abcVault).records
      = abcVault.records.eraseIdx ((2 : Int) - 1).toNat ∧
    (cmd_delete 2 answerYes abcVault).modified = true :=
  ⟨((cmd_delete_order_preserving 2 answerYes abcVault (by decide)).1
      (by decide) (by decide) (by decide)).1,
   ((cmd_delete_order_preserving 2 answerYes abcVault (by decide)).1
      (by decide) (by decide) (by decide)).2.1,
   ((cmd_delete_order_preserving 2 answerYes abcVault (by decide)).1
      (by decide) (by decide) (by decide)).2.2.2.2.2.2.1⟩

set_option maxRecDepth 20000 in
/-- The example of the specification, evaluated: deleting entry number 2 of
A, B, C leaves A, C. -/
theorem cmd_delete_abc : (cmd_delete 2 answerYes abcVault).records = [recA, recC] := by
  decide

/-! ## The session invariant is established and kept -/

/-- A successful `vault_load` establishes the session invariant. -/
theorem vault_load_session (sod : Sodium) (env : LoadEnv) (file : Option (List Byte))
    (path pw : List Byte) (g0 : Vault) (hret : (vault_load sod env file path pw g0).ret = true) :
    Session sod pw (vault_load sod env file path pw g0).vault := by
  obtain ⟨bytes, hb, hlen, hm, hv, hd, hc, hbox⟩ := vault_load_ret_true sod env file path pw g0 hret
  subst hb
  have h1 : ¬ bytes.length < sizeof_VaultHeader := by omega
  have h5 : ¬ MAX_ENTRIES < (VaultHeader.ofBytes bytes).entry_count := by omega
  have hpair : derive_key sod pw (VaultHeader.ofBytes bytes).salt
      = (true, (derive_key sod pw (VaultHeader.ofBytes bytes).salt).2) := by
    rw [← hd]
  by_cases hpos : 0 < (VaultHeader.ofBytes bytes).entry_count
  · obtain ⟨ha1, ha2, hbl, pt, hopen⟩ := hbox hpos
    have h7 : ¬ (bytes.drop sizeof_VaultHeader).length <
        sizeof_AccountEntry * (VaultHeader.ofBytes bytes).entry_count
          + crypto_secretbox_MACBYTES := by omega
    simp only [vault_load, h1, if_false, hm, hv, hd, ne_eq, not_true_eq_false,
      Bool.true_eq_false, h5, hpos, if_true, ha1, ha2, h7, hopen]
    exact ⟨rfl, hm, hv, hpair, hc⟩
  · simp only [vault_load, h1, if_false, hm, hv, hd, ne_eq, not_true_eq_false,
      Bool.true_eq_false, h5, hpos]
    exact ⟨rfl, hm, hv, hpair, hc⟩

/-- Deleting a record keeps the session invariant. -/
theorem cmd_delete_session (sod : Sodium) (pw : List Byte) (idx : Int) (buf : List Byte)
    (g : Vault) (hs : Session sod pw g) : Session sod pw (cmd_delete idx buf g) := by
  obtain ⟨h1, h2, h3, h4, h5⟩ := hs
  by_cases hv : 1 ≤ idx ∧ idx ≤ (g.count : Int) ∧ trim buf = [121, 101, 115]
  · rw [cmd_delete_confirmed idx buf g h5 hv.1 hv.2.1 hv.2.2]
    exact ⟨h1, h2, h3, h4, by show g.count - 1 ≤ MAX_ENTRIES; omega⟩
  · have hn : idx < 1 ∨ (g.count : Int) < idx ∨ trim buf ≠ [121, 101, 115] := by
      by_cases a : idx < 1
      · exact Or.inl a
      by_cases b : (g.count : Int) < idx
      · exact Or.inr (Or.inl b)
      refine Or.inr (Or.inr ?_)
      intro c
      exact hv ⟨by omega, by omega, c⟩
    have hg : cmd_delete idx buf g = g := by
      unfold cmd_delete
      rw [int_of_u32_small g.count h5]
      by_cases hgd : idx < 1 ∨ idx > (g.count : Int)
      · rw [if_pos hgd]
      · have hne : trim buf ≠ [121, 101, 115] := by
          rcases hn with h | h | h
          · exact absurd (Or.inl h) hgd
          · exact absurd (Or.inr h) hgd
          · exact h
        rw [if_neg hgd, if_pos hne]
    rw [hg]
    exact ⟨h1, h2, h3, h4, h5⟩

/-! ## Adding a record -/

/-- The increment of a count below capacity does not wrap. -/
theorem u32_succ_small (c : Nat) (hc : c < MAX_ENTRIES) : u32_succ c = c + 1 := by
  have hc2 : c < 256 := hc
  unfold u32_succ
  omega

/-- The state a completed `cmd_add` produces. -/
theorem cmd_add_completed (inp : AddInput) (g : Vault) (hc : g.count < MAX_ENTRIES)
    (hname : inp.name.length ≠ 0) :
    cmd_add inp g =
      { g with entries := setEntry (setEntry g.entries g.count AccountEntry.zero) g.count
                            (new_entry inp)
               count := g.count + 1
               modified := true } := by
  have hguard : ¬ MAX_ENTRIES ≤ g.count := Nat.not_le.mpr hc
  unfold cmd_add
  rw [if_neg hguard, if_neg hname, u32_succ_small g.count hc]

/-- A full store rejects `cmd_add`. -/
theorem cmd_add_full (inp : AddInput) (g : Vault) (hc : MAX_ENTRIES ≤ g.count) :
    cmd_add inp g = g := by
  unfold cmd_add
  rw [if_pos hc]

/-- The count after a run of completed adds that fits the capacity. -/
theorem cmd_add_many_count (inps : List AddInput) (g : Vault)
    (hall : ∀ x ∈ inps, x.name.length ≠ 0) (hfit : g.count + inps.length ≤ MAX_ENTRIES) :
    (inps.foldl (fun v x => cmd_add x v) g).count = g.count + inps.length := by
  induction inps generalizing g with
  | nil => rfl
  | cons x xs ih =>
    have hfit2 : g.count + (xs.length + 1) ≤ 256 := hfit
    have hx : x.name.length ≠ 0 := hall x (List.mem_cons_self x xs)
    have hstep := cmd_add_completed x g (by show g.count < 256; omega) hx
    have hcnt : (cmd_add x g).count = g.count + 1 := by rw [hstep]
    rw [List.foldl_cons, ih (cmd_add x g) (fun y hy => hall y (List.mem_cons_of_mem x hy))
      (by rw [hcnt]; show g.count + 1 + xs.length ≤ 256; omega), hcnt, List.length_cons]
    omega

/-- The bytes `strncpy(dst, src, n)` leaves in the destination: the string
`src` cut at `n` characters, zeros up to `n`, then the old bytes from `n` on. -/
theorem strncpy_val {len : Nat} (dst : Buf len) (src : List Byte) (n : Nat) (hn : n ≤ len) :
    (strncpy dst src n).val
      = (List.takeWhile (fun b => b != 0) src).take n
        ++ List.replicate (n - (List.takeWhile (fun b => b != 0) src).length) 0
        ++ dst.val.drop n := by
  have hd := dst.property
  unfold strncpy cstr
  simp only [Buf.ofList]
  generalize List.takeWhile (fun b => b != 0) src = S
  have hlen : (S.take n ++ List.replicate (n - S.length) 0 ++ dst.val.drop n).length = len := by
    simp only [List.length_append, List.length_take, List.length_replicate, List.length_drop, hd]
    omega
  rw [List.take_of_length_le (Nat.le_of_eq hlen), hlen, Nat.sub_self]
  simp

/-- The bytes `strncpy` leaves in a zeroed destination: the string cut at `n`
characters and zeros up to the end of the array. -/
theorem strncpy_zero_val (len : Nat) (src : List Byte) (n : Nat) (hn : n ≤ len) :
    (strncpy (Buf.zero len) src n).val
      = (List.takeWhile (fun b => b != 0) src).take n
        ++ List.replicate (len - ((List.takeWhile (fun b => b != 0) src).take n).length) 0 := by
  rw [strncpy_val _ _ _ hn]
  generalize List.takeWhile (fun b => b != 0) src = S
  have hz : (Buf.zero len).val.drop n = List.replicate (len - n) 0 := by
    simp [Buf.zero]
  rw [hz, List.append_assoc, List.append_replicate_replicate, List.length_take]
  congr 2
  omega

/-- The fields of the record `cmd_add` builds, byte by byte. -/
theorem new_entry_fields (inp : AddInput) :
    (new_entry inp).name.val
      = (List.takeWhile (fun b => b != 0) (trim inp.name)).take 63 ++ List.replicate (64 - ((List.takeWhile (fun b => b != 0) (trim inp.name)).take 63).length) 0 ∧
    (new_entry inp).category.val
      = (List.takeWhile (fun b => b != 0) (if (trim inp.category).length = 0 then [103, 101, 110, 101, 114, 97, 108]
            else trim inp.category)).take 31 ++ List.replicate (32 - ((List.takeWhile (fun b => b != 0) (if (trim inp.category).length = 0 then [103, 101, 110, 101, 114, 97, 108]
            else trim inp.category)).take 31).length) 0 ∧
    (new_entry inp).username.val
      = (List.takeWhile (fun b => b != 0) (trim inp.username)).take 63 ++ List.replicate (64 - ((List.takeWhile (fun b => b != 0) (trim inp.username)).take 63).length) 0 ∧
    (new_entry inp).password.val
      = (List.takeWhile (fun b => b != 0) (if trim inp.password = [103]
            then (List.range 24).map (fun i => charset.getD (inp.rand i % 88) 0)
            else if 0 < (trim inp.password).length then trim inp.password else inp.hidden)).take 127 ++ List.replicate (128 - ((List.takeWhile (fun b => b != 0) (if trim inp.password = [103]
            then (List.range 24).map (fun i => charset.getD (inp.rand i % 88) 0)
            else if 0 < (trim inp.password).length then trim inp.password else inp.hidden)).take 127).length) 0 ∧
    (new_entry inp).url.val
      = (List.takeWhile (fun b => b != 0) (trim inp.url)).take 255 ++ List.replicate (256 - ((List.takeWhile (fun b => b != 0) (trim inp.url)).take 255).length) 0 ∧
    (new_entry inp).ssh_key_path.val
      = (List.takeWhile (fun b => b != 0) (trim inp.ssh_key_path)).take 255 ++ List.replicate (256 - ((List.takeWhile (fun b => b != 0) (trim inp.ssh_key_path)).take 255).length) 0 ∧
    (new_entry inp).notes.val
      = (List.takeWhile (fun b => b != 0) (trim inp.notes)).take 511 ++ List.replicate (512 - ((List.takeWhile (fun b => b != 0) (trim inp.notes)).take 511).length) 0 ∧
    (new_entry inp).created_at = inp.now ∧
    (new_entry inp).updated_at = inp.now := by
  refine ⟨?_, ?_, ?_, ?_, ?_, ?_, ?_, rfl, rfl⟩
  · exact strncpy_zero_val 64 _ 63 (by decide)
  · show (if (trim inp.category).length = 0
        then strncpy (Buf.zero 32) str_general 31
        else strncpy (Buf.zero 32) (trim inp.category) 31).val = _
    by_cases h : (trim inp.category).length = 0
    · rw [if_pos h, if_pos h]
      exact strncpy_zero_val 32 _ 31 (by decide)
    · rw [if_neg h, if_neg h]
      exact strncpy_zero_val 32 _ 31 (by decide)
  · exact strncpy_zero_val 64 _ 63 (by decide)
  · show (if trim inp.password = str_g
        then strncpy (Buf.zero 128) (generate_password inp.rand 25) 127
        else if 0 < (trim inp.password).length
          then strncpy (Buf.zero 128) (trim inp.password) 127
          else strncpy (Buf.zero 128) inp.hidden 127).val = _
    by_cases h : trim inp.password = [103]
    · have h2 : trim inp.password = str_g := h
      rw [if_pos h2, if_pos h]
      exact strncpy_zero_val 128 _ 127 (by decide)
    · have h2 : ¬ trim inp.password = str_g := h
      rw [if_neg h2, if_neg h]
      by_cases h3 : 0 < (trim inp.password).length
      · rw [if_pos h3, if_pos h3]
        exact strncpy_zero_val 128 _ 127 (by decide)
      · rw [if_neg h3, if_neg h3]
        exact strncpy_zero_val 128 _ 127 (by decide)
  · exact strncpy_zero_val 256 _ 255 (by decide)
  · exact strncpy_zero_val 256 _ 255 (by decide)
  · exact strncpy_zero_val 512 _ 511 (by decide)

/-- C11. Add appends or rejects. For every store of count `n < 256`, a
`cmd_add` that is not cancelled (the name answer is not empty) places the
new record at index `n`: each text field of slot `n` holds the trimmed
answer as a C string, cut at one character less than the field and zero
filled to its end (the category is "general" when the answer is blank; the
password is 24 characters drawn from the character set when the answer is
"g", and the hidden answer, untrimmed, when it is blank), and both
timestamps are the current time. Every other slot is as it was, count is
`n + 1` and the modified flag is set. For a store of count 256 or more
`cmd_add` returns the vault unchanged: records, count and modified flag.
Hence after 256 completed adds to an empty store the count is 256 and a
257th `cmd_add` changes nothing. -/
theorem cmd_add_appends_or_rejects (inp : AddInput) (g : Vault) :
    (g.count < MAX_ENTRIES → inp.name.length ≠ 0 →
      (cmd_add inp g).entries g.count = new_entry inp ∧
      ((cmd_add inp g).entries g.count).name.val
        = (List.takeWhile (fun b => b != 0) (trim inp.name)).take 63 ++ List.replicate (64 - ((List.takeWhile (fun b => b != 0) (trim inp.name)).take 63).length) 0 ∧
      ((cmd_add inp g).entries g.count).category.val
        = (List.takeWhile (fun b => b != 0) (if (trim inp.category).length = 0 then [103, 101, 110, 101, 114, 97, 108]
            else trim inp.category)).take 31 ++ List.replicate (32 - ((List.takeWhile (fun b => b != 0) (if (trim inp.category).length = 0 then [103, 101, 110, 101, 114, 97, 108]
            else trim inp.category)).take 31).length) 0 ∧
      ((cmd_add inp g).entries g.count).username.val
        = (List.takeWhile (fun b => b != 0) (trim inp.username)).take 63 ++ List.replicate (64 - ((List.takeWhile (fun b => b != 0) (trim inp.username)).take 63).length) 0 ∧
      ((cmd_add inp g).entries g.count).password.val
        = (List.takeWhile (fun b => b != 0) (if trim inp.password = [103]
            then (List.range 24).map (fun i => charset.getD (inp.rand i % 88) 0)
            else if 0 < (trim inp.password).length then trim inp.password else inp.hidden)).take 127 ++ List.replicate (128 - ((List.takeWhile (fun b => b != 0) (if trim inp.password = [103]
            then (List.range 24).map (fun i => charset.getD (inp.rand i % 88) 0)
            else if 0 < (trim inp.password).length then trim inp.password else inp.hidden)).take 127).length) 0 ∧
      ((cmd_add inp g).entries g.count).url.val
        = (List.takeWhile (fun b => b != 0) (trim inp.url)).take 255 ++ List.replicate (256 - ((List.takeWhile (fun b => b != 0) (trim inp.url)).take 255).length) 0 ∧
      ((cmd_add inp g).entries g.count).ssh_key_path.val
        = (List.takeWhile (fun b => b != 0) (trim inp.ssh_key_path)).take 255 ++ List.replicate (256 - ((List.takeWhile (fun b => b != 0) (trim inp.ssh_key_path)).take 255).length) 0 ∧
      ((cmd_add inp g).entries g.count).notes.val
        = (List.takeWhile (fun b => b != 0) (trim inp.notes)).take 511 ++ List.replicate (512 - ((List.takeWhile (fun b => b != 0) (trim inp.notes)).take 511).length) 0 ∧
      ((cmd_add inp g).entries g.count).created_at = inp.now ∧
      ((cmd_add inp g).entries g.count).updated_at = inp.now ∧
      (∀ i, i ≠ g.count → (cmd_add inp g).entries i = g.entries i) ∧
      (cmd_add inp g).count = g.count + 1 ∧
      (cmd_add inp g).modified = true) ∧
    (MAX_ENTRIES ≤ g.count → cmd_add inp g = g) ∧
    (∀ inps : List AddInput, inps.length = MAX_ENTRIES → (∀ x ∈ inps, x.name.length ≠ 0) →
      g.count = 0 →
      (inps.foldl (fun v x => cmd_add x v) g).count = MAX_ENTRIES ∧
      cmd_add inp (inps.foldl (fun v x => cmd_add x v) g)
        = inps.foldl (fun v x => cmd_add x v) g) := by
  refine ⟨?_, cmd_add_full inp g, ?_⟩
  · intro hc hname
    have hslot : (cmd_add inp g).entries g.count = new_entry inp := by
      rw [cmd_add_completed inp g hc hname]
      simp [setEntry]
    obtain ⟨f1, f2, f3, f4, f5, f6, f7, f8, f9⟩ := new_entry_fields inp
    rw [hslot]
    refine ⟨rfl, f1, f2, f3, f4, f5, f6, f7, f8, f9, ?_, ?_, ?_⟩
    · intro i hi
      rw [cmd_add_completed inp g hc hname]
      simp [setEntry, hi]
    · rw [cmd_add_completed inp g hc hname]
    · rw [cmd_add_completed inp g hc hname]
  · intro inps hlen hall hzero
    have hcnt := cmd_add_many_count inps g hall
      (by rw [hzero, hlen]; exact Nat.le_of_eq (Nat.zero_add _))
    rw [hzero, hlen, Nat.zero_add] at hcnt
    exact ⟨hcnt, cmd_add_full inp _ (Nat.le_of_eq hcnt.symm)⟩

set_option maxRecDepth 20000 in
/-- Instance of C11: the answers " Bob ", a blank category, "g" for the
password and a tab for the URL, added at time 7 to the vault that holds A,
B, C: slot 3 reads "Bob", "general", the generated password "abc...x" and an
empty URL. -/
theorem cmd_add_appends_or_rejects_witness :
    ((cmd_add addB abcVault).entries abcVault.count).name.val
      = (List.takeWhile (fun b => b != 0) (trim addB.name)).take 63
        ++ List.replicate
          (64 - ((List.takeWhile (fun b => b != 0) (trim addB.name)).take 63).length) 0 ∧
    ((cmd_add addB abcVault).entries 3).name.val = [66, 111, 98] ++ List.replicate 61 0 ∧
    ((cmd_add addB abcVault).entries 3).category.val
      = [103, 101, 110, 101, 114, 97, 108] ++ List.replicate 25 0 ∧
    ((cmd_add addB abcVault).entries 3).password.val
      = [97, 98, 99, 100, 101, 102, 103, 104, 105, 106, 107, 108, 109, 110, 111, 112, 113, 114,
          115, 116, 117, 118, 119, 120] ++ List.replicate 104 0 ∧
    ((cmd_add addB abcVault).entries 3).url.val = List.replicate 256 0 ∧
    ((cmd_add addB abcVault).entries 3).created_at = 7 ∧
    ((cmd_add addB abcVault).entries 3).updated_at = 7 ∧
    (cmd_add addB abcVault).entries 1 = recB ∧
    (cmd_add addB abcVault).count = abcVault.count + 1 ∧
    (cmd_add addB abcVault).modified = true :=
  ⟨((cmd_add_appends_or_rejects addB abcVault).1 (by decide) (by decide)).2.1,
   by decide, by decide, by decide, by decide, by decide, by decide,
   ((cmd_add_appends_or_rejects addB abcVault).1 (by decide)
      (by decide)).2.2.2.2.2.2.2.2.2.2.1 1 (by decide),
   ((cmd_add_appends_or_rejects addB abcVault).1 (by decide) (by decide)).2.2.2.2.2.2.2.2.2.2.2.1,
   ((cmd_add_appends_or_rejects addB abcVault).1 (by decide)
      (by decide)).2.2.2.2.2.2.2.2.2.2.2.2⟩

/-! ## Creating a vault -/

/-- The record-count field of a file that starts with a complete header image. -/
theorem header_count_of_file (h : VaultHeader) (hw : Nat) (body : List Byte)
    (hhw : sizeof_VaultHeader ≤ hw) :
    (VaultHeader.ofBytes (h.toBytes.take hw ++ body)).entry_count
      = h.entry_count % 4294967296 ∧
    (VaultHeader.ofBytes (h.toBytes.take hw ++ body)).magic = h.magic ∧
    (VaultHeader.ofBytes (h.toBytes.take hw ++ body)).version = h.version := by
  have hl := header_toBytes_length h
  rw [List.take_of_length_le (by omega), header_ofBytes_toBytes_mod]
  exact ⟨rfl, rfl, rfl⟩

/-- The state a successful `vault_create` produces. -/
theorem vault_create_ok (sod : Sodium) (env : CreateEnv) (path pw : List Byte) (g : Vault)
    (hd : (derive_key sod pw env.salt).1 = true) :
    vault_create sod env path pw g =
      ⟨true,
       { g with header := { g.header with magic := VAULT_MAGIC, version := VAULT_VERSION,
                                          entry_count := 0, salt := env.salt,
                                          nonce := env.nonce }
                count := 0
                key := (derive_key sod pw env.salt).2
                vault_path := path.take 511
                unlocked := true
                modified := true }⟩ := by
  simp [vault_create, hd]

/-- The state a failing `vault_create` produces. -/
theorem vault_create_fail (sod : Sodium) (env : CreateEnv) (path pw : List Byte) (g : Vault)
    (hd : (derive_key sod pw env.salt).1 = false) :
    vault_create sod env path pw g =
      ⟨false,
       { g with header := { g.header with magic := VAULT_MAGIC, version := VAULT_VERSION,
                                          entry_count := 0, salt := env.salt,
                                          nonce := env.nonce }
                count := 0
                key := (derive_key sod pw env.salt).2 }⟩ := by
  simp [vault_create, hd]

/-- C14. Create. For every path, password, prior vault and drawn salt and
nonce: when the key derivation succeeds, `vault_create` returns true and
leaves the vault unlocked with count 0, the modified flag set, magic "ACCT",
version 1, the drawn salt and nonce in the header, and the key derived from
the password and that salt; every `vault_save` of that vault that opens the
file and completes the header write puts magic "ACCT", version 1 and record
count 0 in the file. When the key derivation fails, `vault_create` returns
false and leaves `unlocked` as it was, so the vault that was Locked when
`main` called it is not unlocked, and the new-vault branch of `main` exits
with status 1 without opening the vault file. -/
theorem vault_create_spec (sod : Sodium) (env : CreateEnv) (path pw : List Byte) (g : Vault) :
    ((derive_key sod pw env.salt).1 = true →
      (vault_create sod env path pw g).ret = true ∧
      (vault_create sod env path pw g).vault.unlocked = true ∧
      (vault_create sod env path pw g).vault.count = 0 ∧
      (vault_create sod env path pw g).vault.modified = true ∧
      (vault_create sod env path pw g).vault.header.magic = VAULT_MAGIC ∧
      (vault_create sod env path pw g).vault.header.version = VAULT_VERSION ∧
      (vault_create sod env path pw g).vault.header.salt = env.salt ∧
      (vault_create sod env path pw g).vault.header.nonce = env.nonce ∧
      (vault_create sod env path pw g).vault.key = (derive_key sod pw env.salt).2 ∧
      (vault_create sod env path pw g).vault.entries = g.entries ∧
      (∀ senv file, (vault_save sod senv (vault_create sod env path pw g).vault).file = some file →
        sizeof_VaultHeader ≤ senv.header_written →
        (VaultHeader.ofBytes file).entry_count = 0 ∧
        (VaultHeader.ofBytes file).magic = VAULT_MAGIC ∧
        (VaultHeader.ofBytes file).version = VAULT_VERSION ∧
        (VaultHeader.ofBytes file).salt = env.salt) ∧
      (∀ senv, (main_create sod env senv path pw pw g).file
        = (vault_save sod senv (vault_create sod env path pw g).vault).file)) ∧
    ((derive_key sod pw env.salt).1 = false →
      (vault_create sod env path pw g).ret = false ∧
      (vault_create sod env path pw g).vault.unlocked = g.unlocked ∧
      (vault_create sod env path pw g).vault.entries = g.entries ∧
      (∀ senv confirm, (main_create sod env senv path pw confirm g).file = none ∧
        (main_create sod env senv path pw confirm g).exit = some 1 ∧
        (main_create sod env senv path pw confirm g).vault.unlocked = g.unlocked)) := by
  constructor
  · intro hd
    rw [vault_create_ok sod env path pw g hd]
    refine ⟨rfl, rfl, rfl, rfl, rfl, rfl, rfl, rfl, rfl, rfl, ?_, ?_⟩
    · intro senv file hfile hhw
      obtain ⟨-, -, -, -, c, -, hfeq⟩ := vault_save_file sod senv _ file hfile
      rw [hfeq]
      obtain ⟨h1, h2, h3⟩ := header_count_of_file _ senv.header_written
        (c.take senv.ciphertext_written) hhw
      obtain ⟨h4, -, -⟩ := header_fields_of_file _ senv.header_written
        (c.take senv.ciphertext_written) hhw
      exact ⟨h1, h2, h3, h4⟩
    · intro senv
      have hr : (vault_create sod env path pw g).ret = true := by
        rw [vault_create_ok sod env path pw g hd]
      unfold main_create
      rw [← vault_create_ok sod env path pw g hd]
      simp only [ne_eq, not_true_eq_false, if_false, hr, Bool.true_eq_false]
      split_ifs <;> rfl
  · intro hd
    have hr : (vault_create sod env path pw g).ret = false := by
      rw [vault_create_fail sod env path pw g hd]
    have hu : (vault_create sod env path pw g).vault.unlocked = g.unlocked := by
      rw [vault_create_fail sod env path pw g hd]
    refine ⟨hr, hu, by rw [vault_create_fail sod env path pw g hd], ?_⟩
    intro senv confirm
    unfold main_create
    by_cases hpc : pw ≠ confirm
    · rw [if_pos hpc]
      refine ⟨rfl, rfl, ?_⟩
      unfold die
      split_ifs <;> rfl
    · rw [if_neg hpc, if_pos hr]
      exact ⟨rfl, rfl, hu⟩

/-- Instance of C14: creation under "p" with the stand-in library, followed by
the save of `main`. -/
theorem vault_create_spec_witness :
    (vault_create toySodium zeroCreateEnv [] pwP Vault.init).ret = true ∧
    (vault_create toySodium zeroCreateEnv [] pwP Vault.init).vault.unlocked = true ∧
    (vault_create toySodium zeroCreateEnv [] pwP Vault.init).vault.count = 0 ∧
    (vault_create toySodium zeroCreateEnv [] pwP Vault.init).vault.modified = true ∧
    (VaultHeader.ofBytes
      ((main_create toySodium zeroCreateEnv okSaveEnv [] pwP pwP Vault.init).file.getD
        [])).entry_count = 0 :=
  ⟨((vault_create_spec toySodium zeroCreateEnv [] pwP Vault.init).1 rfl).1,
   ((vault_create_spec toySodium zeroCreateEnv [] pwP Vault.init).1 rfl).2.1,
   ((vault_create_spec toySodium zeroCreateEnv [] pwP Vault.init).1 rfl).2.2.1,
   ((vault_create_spec toySodium zeroCreateEnv [] pwP Vault.init).1 rfl).2.2.2.1,
   by
    have h := (vault_create_spec toySodium zeroCreateEnv [] pwP Vault.init).1 rfl
    rw [h.2.2.2.2.2.2.2.2.2.2.2 okSaveEnv]
    exact (h.2.2.2.2.2.2.2.2.2.2.1 okSaveEnv _ rfl (by decide)).1⟩

/-! ## Editing a record -/

/-- The state an in-range `cmd_edit` produces. -/
theorem cmd_edit_in_range (idx : Int) (inp : EditInput) (g : Vault)
    (hcount : g.count ≤ MAX_ENTRIES) (h1 : 1 ≤ idx) (h2 : idx ≤ (g.count : Int)) :
    cmd_edit idx inp g =
      { g with entries := setEntry g.entries (idx - 1).toNat
                            (edited_entry inp (g.entries (idx - 1).toNat))
               modified := true } := by
  have hguard : ¬ (idx < 1 ∨ idx > int_of_u32 g.count) := by
    rw [int_of_u32_small g.count hcount]; omega
  unfold cmd_edit
  rw [if_neg hguard]

/-- An out-of-range `cmd_edit` changes nothing. -/
theorem cmd_edit_out_of_range (idx : Int) (inp : EditInput) (g : Vault)
    (hcount : g.count ≤ MAX_ENTRIES) (h : idx < 1 ∨ (g.count : Int) < idx) :
    cmd_edit idx inp g = g := by
  have hguard : idx < 1 ∨ idx > int_of_u32 g.count := by
    rw [int_of_u32_small g.count hcount]; omega
  unfold cmd_edit
  rw [if_pos hguard]

/-- The fields of the record `cmd_edit` leaves in place of `e`, byte by byte. -/
theorem edited_entry_fields (inp : EditInput) (e : AccountEntry) :
    (edited_entry inp e).name.val
      = (if 0 < (trim inp.name).length
          then (List.takeWhile (fun b => b != 0) (trim inp.name)).take 63
              ++ List.replicate (63 - (List.takeWhile (fun b => b != 0) (trim inp.name)).length) 0
              ++ e.name.val.drop 63
          else e.name.val) ∧
    (edited_entry inp e).category.val
      = (if 0 < (trim inp.category).length
          then (List.takeWhile (fun b => b != 0) (trim inp.category)).take 31
              ++ List.replicate (31 - (List.takeWhile (fun b => b != 0) (trim inp.category)).length) 0
              ++ e.category.val.drop 31
          else e.category.val) ∧
    (edited_entry inp e).username.val
      = (if 0 < (trim inp.username).length
          then (List.takeWhile (fun b => b != 0) (trim inp.username)).take 63
              ++ List.replicate (63 - (List.takeWhile (fun b => b != 0) (trim inp.username)).length) 0
              ++ e.username.val.drop 63
          else e.username.val) ∧
    (edited_entry inp e).password.val
      = (if trim inp.password = [103]
          then (List.takeWhile (fun b => b != 0) ((List.range 24).map (fun i => charset.getD (inp.rand i % 88) 0))).take 127
              ++ List.replicate (127 - (List.takeWhile (fun b => b != 0) ((List.range 24).map (fun i => charset.getD (inp.rand i % 88) 0))).length) 0
              ++ e.password.val.drop 127
          else if 0 < (trim inp.password).length
          then (List.takeWhile (fun b => b != 0) (trim inp.password)).take 127
              ++ List.replicate (127 - (List.takeWhile (fun b => b != 0) (trim inp.password)).length) 0
              ++ e.password.val.drop 127
          else e.password.val) ∧
    (edited_entry inp e).url.val
      = (if 0 < (trim inp.url).length
          then (List.takeWhile (fun b => b != 0) (trim inp.url)).take 255
              ++ List.replicate (255 - (List.takeWhile (fun b => b != 0) (trim inp.url)).length) 0
              ++ e.url.val.drop 255
          else e.url.val) ∧
    (edited_entry inp e).ssh_key_path.val
      = (if 0 < (trim inp.ssh_key_path).length
          then (List.takeWhile (fun b => b != 0) (trim inp.ssh_key_path)).take 255
              ++ List.replicate (255 - (List.takeWhile (fun b => b != 0) (trim inp.ssh_key_path)).length) 0
              ++ e.ssh_key_path.val.drop 255
          else e.ssh_key_path.val) ∧
    (edited_entry inp e).notes.val
      = (if 0 < (trim inp.notes).length
          then (List.takeWhile (fun b => b != 0) (trim inp.notes)).take 511
              ++ List.replicate (511 - (List.takeWhile (fun b => b != 0) (trim inp.notes)).length) 0
              ++ e.notes.val.drop 511
          else e.notes.val) ∧
    (edited_entry inp e).created_at = e.created_at ∧
    (edited_entry inp e).updated_at = inp.now := by
  refine ⟨?_, ?_, ?_, ?_, ?_, ?_, ?_, rfl, rfl⟩
  · show (if 0 < (trim inp.name).length then strncpy e.name (trim inp.name) 63
        else e.name).val = _
    by_cases h : 0 < (trim inp.name).length
    · rw [if_pos h, if_pos h]
      exact strncpy_val _ _ 63 (by decide)
    · rw [if_neg h, if_neg h]
  · show (if 0 < (trim inp.category).length then strncpy e.category (trim inp.category) 31
        else e.category).val = _
    by_cases h : 0 < (trim inp.category).length
    · rw [if_pos h, if_pos h]
      exact strncpy_val _ _ 31 (by decide)
    · rw [if_neg h, if_neg h]
  · show (if 0 < (trim inp.username).length then strncpy e.username (trim inp.username) 63
        else e.username).val = _
    by_cases h : 0 < (trim inp.username).length
    · rw [if_pos h, if_pos h]
      exact strncpy_val _ _ 63 (by decide)
    · rw [if_neg h, if_neg h]
  · show (if trim inp.password = str_g
        then strncpy e.password (generate_password inp.rand 25) 127
        else if 0 < (trim inp.password).length
          then strncpy e.password (trim inp.password) 127
          else e.password).val = _
    by_cases h : trim inp.password = [103]
    · have h2 : trim inp.password = str_g := h
      rw [if_pos h2, if_pos h]
      exact strncpy_val _ _ 127 (by decide)
    · have h2 : ¬ trim inp.password = str_g := h
      rw [if_neg h2, if_neg h]
      by_cases h3 : 0 < (trim inp.password).length
      · rw [if_pos h3, if_pos h3]
        exact strncpy_val _ _ 127 (by decide)
      · rw [if_neg h3, if_neg h3]
  · show (if 0 < (trim inp.url).length then strncpy e.url (trim inp.url) 255
        else e.url).val = _
    by_cases h : 0 < (trim inp.url).length
    · rw [if_pos h, if_pos h]
      exact strncpy_val _ _ 255 (by decide)
    · rw [if_neg h, if_neg h]
  · show (if 0 < (trim inp.ssh_key_path).length
        then strncpy e.ssh_key_path (trim inp.ssh_key_path) 255
        else e.ssh_key_path).val = _
    by_cases h : 0 < (trim inp.ssh_key_path).length
    · rw [if_pos h, if_pos h]
      exact strncpy_val _ _ 255 (by decide)
    · rw [if_neg h, if_neg h]
  · show (if 0 < (trim inp.notes).length then strncpy e.notes (trim inp.notes) 511
        else e.notes).val = _
    by_cases h : 0 < (trim inp.notes).length
    · rw [if_pos h, if_pos h]
      exact strncpy_val _ _ 511 (by decide)
    · rw [if_neg h, if_neg h]

/-- C15. Update. Let the store hold `n = count` records, `n` at most 256. If
`1 ≤ idx ≤ n`, then after `cmd_edit` the record at index `idx - 1` has its
last-modified timestamp set to the current time and the modified flag is
set (on every edit, hence whenever a field changed). Each text field keeps
its bytes when the trimmed answer is blank; otherwise its bytes become the
trimmed answer as a C string, cut at one character less than the field and
zero filled up to there, followed by the field's old last byte (for the
password field the text is 24 characters drawn from the character set when
the trimmed answer is "g"). The creation timestamp, every other slot and the
count are unchanged. If `idx < 1` or `idx > n` the vault is unchanged:
records, count and modified flag. -/
theorem cmd_edit_updates (idx : Int) (inp : EditInput) (g : Vault)
    (hcount : g.count ≤ MAX_ENTRIES) :
    (1 ≤ idx → idx ≤ (g.count : Int) →
      ((cmd_edit idx inp g).entries (idx - 1).toNat).updated_at = inp.now ∧
      (cmd_edit idx inp g).modified = true ∧
      ((cmd_edit idx inp g).entries (idx - 1).toNat).created_at
        = (g.entries (idx - 1).toNat).created_at ∧
      ((cmd_edit idx inp g).entries (idx - 1).toNat).name.val
        = (if 0 < (trim inp.name).length
            then (List.takeWhile (fun b => b != 0) (trim inp.name)).take 63
              ++ List.replicate (63 - (List.takeWhile (fun b => b != 0) (trim inp.name)).length) 0
              ++ (g.entries (idx - 1).toNat).name.val.drop 63
            else (g.entries (idx - 1).toNat).name.val) ∧
      ((cmd_edit idx inp g).entries (idx - 1).toNat).category.val
        = (if 0 < (trim inp.category).length
            then (List.takeWhile (fun b => b != 0) (trim inp.category)).take 31
              ++ List.replicate (31 - (List.takeWhile (fun b => b != 0) (trim inp.category)).length) 0
              ++ (g.entries (idx - 1).toNat).category.val.drop 31
            else (g.entries (idx - 1).toNat).category.val) ∧
      ((cmd_edit idx inp g).entries (idx - 1).toNat).username.val
        = (if 0 < (trim inp.username).length
            then (List.takeWhile (fun b => b != 0) (trim inp.username)).take 63
              ++ List.replicate (63 - (List.takeWhile (fun b => b != 0) (trim inp.username)).length) 0
              ++ (g.entries (idx - 1).toNat).username.val.drop 63
            else (g.entries (idx - 1).toNat).username.val) ∧
      ((cmd_edit idx inp g).entries (idx - 1).toNat).password.val
        = (if trim inp.password = [103]
            then (List.takeWhile (fun b => b != 0) ((List.range 24).map (fun i => charset.getD (inp.rand i % 88) 0))).take 127
              ++ List.replicate (127 - (List.takeWhile (fun b => b != 0) ((List.range 24).map (fun i => charset.getD (inp.rand i % 88) 0))).length) 0
              ++ (g.entries (idx - 1).toNat).password.val.drop 127
            else if 0 < (trim inp.password).length
            then (List.takeWhile (fun b => b != 0) (trim inp.password)).take 127
              ++ List.replicate (127 - (List.takeWhile (fun b => b != 0) (trim inp.password)).length) 0
              ++ (g.entries (idx - 1).toNat).password.val.drop 127
            else (g.entries (idx - 1).toNat).password.val) ∧
      ((cmd_edit idx inp g).entries (idx - 1).toNat).url.val
        = (if 0 < (trim inp.url).length
            then (List.takeWhile (fun b => b != 0) (trim inp.url)).take 255
              ++ List.replicate (255 - (List.takeWhile (fun b => b != 0) (trim inp.url)).length) 0
              ++ (g.entries (idx - 1).toNat).url.val.drop 255
            else (g.entries (idx - 1).toNat).url.val) ∧
      ((cmd_edit idx inp g).entries (idx - 1).toNat).ssh_key_path.val
        = (if 0 < (trim inp.ssh_key_path).length
            then (List.takeWhile (fun b => b != 0) (trim inp.ssh_key_path)).take 255
              ++ List.replicate (255 - (List.takeWhile (fun b => b != 0) (trim inp.ssh_key_path)).length) 0
              ++ (g.entries (idx - 1).toNat).ssh_key_path.val.drop 255
            else (g.entries (idx - 1).toNat).ssh_key_path.val) ∧
      ((cmd_edit idx inp g).entries (idx - 1).toNat).notes.val
        = (if 0 < (trim inp.notes).length
            then (List.takeWhile (fun b => b != 0) (trim inp.notes)).take 511
              ++ List.replicate (511 - (List.takeWhile (fun b => b != 0) (trim inp.notes)).length) 0
              ++ (g.entries (idx - 1).toNat).notes.val.drop 511
            else (g.entries (idx - 1).toNat).notes.val) ∧
      (∀ j, j ≠ (idx - 1).toNat → (cmd_edit idx inp g).entries j = g.entries j) ∧
      (cmd_edit idx inp g).count = g.count) ∧
    (idx < 1 ∨ (g.count : Int) < idx → cmd_edit idx inp g = g) := by
  refine ⟨?_, cmd_edit_out_of_range idx inp g hcount⟩
  intro h1 h2
  rw [cmd_edit_in_range idx inp g hcount h1 h2]
  generalize (idx - 1).toNat = k
  have hk : setEntry g.entries k (edited_entry inp (g.entries k)) k
      = edited_entry inp (g.entries k) := by
    simp [setEntry]
  obtain ⟨f1, f2, f3, f4, f5, f6, f7, f8, f9⟩ := edited_entry_fields inp (g.entries k)
  dsimp only
  rw [hk]
  refine ⟨f9, rfl, f8, f1, f2, f3, f4, f5, f6, f7, ?_, rfl⟩
  intro j hj
  simp [setEntry, hj]

set_option maxRecDepth 20000 in
/-- Instance of C15: the record "A" with password "p", created at time 5,
renamed at time 9 with the answer " Zed " and a blank for every other field:
the name reads "Zed", the password is still "p". -/
theorem cmd_edit_updates_witness :
    ((cmd_edit 1 editB oneVault).entries ((1 : Int) - 1).toNat).updated_at = editB.now ∧
    (cmd_edit 1 editB oneVault).modified = true ∧
    ((cmd_edit 1 editB oneVault).entries ((1 : Int) - 1).toNat).created_at
      = (oneVault.entries ((1 : Int) - 1).toNat).created_at ∧
    (cmd_edit 1 editB oneVault).count = oneVault.count ∧
    (oneVault.entries 0).name.val = 65 :: List.replicate 63 0 ∧
    ((cmd_edit 1 editB oneVault).entries 0).name.val
      = [90, 101, 100] ++ List.replicate 61 0 ∧
    ((cmd_edit 1 editB oneVault).entries 0).password.val = 112 :: List.replicate 127 0 ∧
    ((cmd_edit 1 editB oneVault).entries 0).created_at = 5 ∧
    ((cmd_edit 1 editB oneVault).entries 0).updated_at = 9 :=
  ⟨((cmd_edit_updates 1 editB oneVault (by decide)).1 (by decide) (by decide)).1,
   ((cmd_edit_updates 1 editB oneVault (by decide)).1 (by decide) (by decide)).2.1,
   ((cmd_edit_updates 1 editB oneVault (by decide)).1 (by decide) (by decide)).2.2.1,
   ((cmd_edit_updates 1 editB oneVault (by decide)).1 (by decide)
      (by decide)).2.2.2.2.2.2.2.2.2.2.2,
   by decide, by decide, by decide, by decide, by decide⟩

/-! ## Operations on a Locked vault -/

/-- C12 fails on the code, by the defect of C4: `vault_load` stores the
declared record count in `g_vault.count` before it rejects it. The one-step
sequence that opens the 52-byte file declaring 257 records, applied to the
zeroed, Locked startup vault, fails and ends in a state with count 257. -/
theorem failed_open_breaks_count_invariant :
    Vault.init.count = 0 ∧ Vault.init.unlocked = false ∧
    (vault_load toySodium okLoadEnv (some oversizedFile) [] pwP Vault.init).ret = false ∧
    (run_ops toySodium [Op.load okLoadEnv (some oversizedFile) [] pwP] Vault.init).count = 257 ∧
    ¬ (run_ops toySodium [Op.load okLoadEnv (some oversizedFile) [] pwP] Vault.init).count
        ≤ MAX_ENTRIES :=
  ⟨rfl, rfl, by decide, by decide, by decide⟩

set_option maxRecDepth 20000 in
/-- C13 as stated fails: no operation tests for the Locked state and there is
no invalid-state error. On the Locked startup vault `vault_save` returns
true, and `cmd_add` stores the record, raises the count to 1 and sets the
modified flag while `unlocked` stays false. -/
theorem locked_operations_report_no_error :
    Vault.init.unlocked = false ∧
    (vault_save toySodium okSaveEnv Vault.init).ret = true ∧
    (cmd_add addA Vault.init).unlocked = false ∧
    (cmd_add addA Vault.init).count = 1 ∧
    (cmd_add addA Vault.init).modified = true ∧
    (cmd_add addA Vault.init).entries 0 ≠ Vault.init.entries 0 :=
  ⟨rfl, by decide, by decide, by decide, by decide, by decide⟩

/-- C13, amended to what the code does in the Locked state. When `unlocked`
is false, `vault_save` writes no file, leaves the vault as it is and returns
true; `vault_lock` writes no file and leaves the vault Locked, with the key,
every record slot and the count zeroed and all else as it was. The store
operations `cmd_add`, `cmd_edit` and `cmd_delete` do not read the flag: on
vaults that differ only in `unlocked` they yield vaults that differ only in
`unlocked`. -/
theorem locked_operations (sod : Sodium) (env : SaveEnv) (g : Vault)
    (hl : g.unlocked = false) :
    vault_save sod env g = ⟨true, g, none⟩ ∧
    (vault_lock sod env g).2 = none ∧
    (vault_lock sod env g).1
      = { g with key := Buf.zero _, entries := fun _ => AccountEntry.zero, count := 0 } ∧
    (∀ (b : Bool) (inp : AddInput),
      cmd_add inp { g with unlocked := b } = { cmd_add inp g with unlocked := b }) ∧
    (∀ (b : Bool) (idx : Int) (inp : EditInput),
      cmd_edit idx inp { g with unlocked := b } = { cmd_edit idx inp g with unlocked := b }) ∧
    (∀ (b : Bool) (idx : Int) (buf : List Byte),
      cmd_delete idx buf { g with unlocked := b }
        = { cmd_delete idx buf g with unlocked := b }) := by
  have hsave : vault_save sod env g = ⟨true, g, none⟩ := by
    simp [vault_save, hl]
  refine ⟨hsave, ?_, ?_, ?_, ?_, ?_⟩
  · unfold vault_lock
    by_cases hm : g.modified = true
    · simp [hm, hsave]
    · have hm2 : g.modified = false := by simpa using hm
      simp [hm2]
  · unfold vault_lock
    by_cases hm : g.modified = true
    · simp only [hm, if_true, hsave]
      simp [hl]
    · have hm2 : g.modified = false := by simpa using hm
      simp [hm2, hl]
  · intro b inp
    unfold cmd_add
    dsimp only
    split_ifs <;> rfl
  · intro b idx inp
    unfold cmd_edit
    dsimp only
    split_ifs <;> rfl
  · intro b idx buf
    unfold cmd_delete
    dsimp only
    split_ifs <;> rfl

/-- Instance of the amended C13: the Locked startup vault. -/
theorem locked_operations_witness :
    vault_save toySodium okSaveEnv Vault.init = ⟨true, Vault.init, none⟩ ∧
    (vault_lock toySodium okSaveEnv Vault.init).2 = none :=
  ⟨(locked_operations toySodium okSaveEnv Vault.init rfl).1,
   (locked_operations toySodium okSaveEnv Vault.init rfl).2.1⟩

/-! ## No record past the count -/

/-- The count and the untouched slots after a successful `vault_load`. -/
theorem vault_load_success_slots (sod : Sodium) (env : LoadEnv) (file : Option (List Byte))
    (path pw : List Byte) (g0 : Vault) (hret : (vault_load sod env file path pw g0).ret = true) :
    (vault_load sod env file path pw g0).vault.count ≤ MAX_ENTRIES ∧
    ∀ i, (vault_load sod env file path pw g0).vault.count ≤ i →
      (vault_load sod env file path pw g0).vault.entries i = g0.entries i := by
  obtain ⟨bytes, hb, hlen, hm, hv, hd, hc, hbox⟩ := vault_load_ret_true sod env file path pw g0 hret
  subst hb
  have h1 : ¬ bytes.length < sizeof_VaultHeader := by omega
  have h5 : ¬ MAX_ENTRIES < (VaultHeader.ofBytes bytes).entry_count := by omega
  by_cases hpos : 0 < (VaultHeader.ofBytes bytes).entry_count
  · obtain ⟨ha1, ha2, hbl, pt, hopen⟩ := hbox hpos
    have h7 : ¬ (bytes.drop sizeof_VaultHeader).length <
        sizeof_AccountEntry * (VaultHeader.ofBytes bytes).entry_count
          + crypto_secretbox_MACBYTES := by omega
    simp only [vault_load, h1, if_false, hm, hv, hd, ne_eq, not_true_eq_false,
      Bool.true_eq_false, h5, hpos, if_true, ha1, ha2, h7, hopen]
    refine ⟨hc, ?_⟩
    intro i hi
    have hi2 : ¬ i < (VaultHeader.ofBytes bytes).entry_count := by omega
    simp only [entriesOfBytes, hi2, if_false]
  · simp only [vault_load, h1, if_false, hm, hv, hd, ne_eq, not_true_eq_false,
      Bool.true_eq_false, h5, hpos]
    exact ⟨hc, fun i _ => trivial⟩

/-- Creation and a successful open, applied in the Locked state, leave no
record past the count. -/
theorem admissible_start_clear (sod : Sodium) (g : Vault) (hg : LockedEmpty g) :
    (∀ env path pw, PastCountZero (vault_create sod env path pw g).vault) ∧
    (∀ env file path pw, (vault_load sod env file path pw g).ret = true →
      PastCountZero (vault_load sod env file path pw g).vault) := by
  obtain ⟨-, hz⟩ := hg
  constructor
  · intro env path pw
    have he : (vault_create sod env path pw g).vault.entries = g.entries ∧
        (vault_create sod env path pw g).vault.count = 0 := by
      unfold vault_create
      dsimp only
      split_ifs <;> exact ⟨rfl, rfl⟩
    refine ⟨by rw [he.2]; exact Nat.zero_le _, ?_⟩
    intro i _ hi
    rw [he.1]
    exact hz i hi
  · intro env file path pw hret
    obtain ⟨hc, hs⟩ := vault_load_success_slots sod env file path pw g hret
    refine ⟨hc, ?_⟩
    intro i hi1 hi2
    rw [hs i hi1]
    exact hz i hi2

/-- Adding, editing and deleting keep the slots past the count zero. -/
theorem store_operations_clear (g : Vault) (hg : PastCountZero g) :
    (∀ inp, PastCountZero (cmd_add inp g)) ∧
    (∀ idx inp, PastCountZero (cmd_edit idx inp g)) ∧
    (∀ idx buf, PastCountZero (cmd_delete idx buf g)) := by
  obtain ⟨hc, hz⟩ := hg
  have hc2 : g.count ≤ 256 := hc
  refine ⟨?_, ?_, ?_⟩
  · intro inp
    by_cases hfull : MAX_ENTRIES ≤ g.count
    · rw [cmd_add_full inp g hfull]
      exact ⟨hc, hz⟩
    have hlt : g.count < MAX_ENTRIES := Nat.not_le.mp hfull
    have hlt2 : g.count < 256 := hlt
    by_cases hname : inp.name.length = 0
    · have hcancel : cmd_add inp g
          = { g with entries := setEntry g.entries g.count AccountEntry.zero } := by
        unfold cmd_add
        rw [if_neg hfull, if_pos hname]
      rw [hcancel]
      refine ⟨hc, ?_⟩
      intro i hi1 hi2
      by_cases hi : i = g.count
      · simp [setEntry, hi]
      · simp only [setEntry, hi, if_false]
        exact hz i hi1 hi2
    · rw [cmd_add_completed inp g hlt hname]
      refine ⟨by show g.count + 1 ≤ 256; omega, ?_⟩
      intro i hi1 hi2
      have hi3 : g.count + 1 ≤ i := hi1
      have hi : i ≠ g.count := by omega
      simp only [setEntry, hi, if_false]
      exact hz i (by omega) hi2
  · intro idx inp
    by_cases hr : 1 ≤ idx ∧ idx ≤ (g.count : Int)
    · rw [cmd_edit_in_range idx inp g hc hr.1 hr.2]
      refine ⟨hc, ?_⟩
      intro i hi1 hi2
      have hi3 : g.count ≤ i := hi1
      have hi : i ≠ (idx - 1).toNat := by omega
      simp only [setEntry, hi, if_false]
      exact hz i hi1 hi2
    · rw [cmd_edit_out_of_range idx inp g hc (by omega)]
      exact ⟨hc, hz⟩
  · intro idx buf
    by_cases hr : 1 ≤ idx ∧ idx ≤ (g.count : Int) ∧ trim buf = [121, 101, 115]
    · rw [cmd_delete_confirmed idx buf g hc hr.1 hr.2.1 hr.2.2]
      refine ⟨by show g.count - 1 ≤ 256; omega, ?_⟩
      intro i hi1 hi2
      have hi3 : g.count - 1 ≤ i := hi1
      dsimp only
      by_cases hi : i = g.count - 1
      · rw [if_pos hi]
      · have hn : ¬ ((idx - 1).toNat ≤ i ∧ i < g.count - 1) := by omega
        rw [if_neg hi, if_neg hn]
        exact hz i (by omega) hi2
    · have hn : idx < 1 ∨ (g.count : Int) < idx ∨ trim buf ≠ [121, 101, 115] := by
        by_cases a : idx < 1
        · exact Or.inl a
        by_cases b : (g.count : Int) < idx
        · exact Or.inr (Or.inl b)
        refine Or.inr (Or.inr ?_)
        intro c
        exact hr ⟨by omega, by omega, c⟩
      have hg2 : cmd_delete idx buf g = g := by
        unfold cmd_delete
        rw [int_of_u32_small g.count hc]
        by_cases hgd : idx < 1 ∨ idx > (g.count : Int)
        · rw [if_pos hgd]
        · have hne : trim buf ≠ [121, 101, 115] := by
            rcases hn with h | h | h
            · exact absurd (Or.inl h) hgd
            · exact absurd (Or.inr h) hgd
            · exact h
          rw [if_neg hgd, if_pos hne]
      rw [hg2]
      exact ⟨hc, hz⟩

/-- Every admissible operation keeps the slots past the count zero. -/
theorem admissible_step_clear (sod : Sodium) (op : Op) (g : Vault) (hg : PastCountZero g)
    (hadm : op.admissible sod g) : PastCountZero (op.apply sod g) := by
  cases op with
  | create env path pw => exact (admissible_start_clear sod g hadm).1 env path pw
  | load env file path pw =>
    exact (admissible_start_clear sod g hadm.1).2 env file path pw hadm.2
  | add inp => exact (store_operations_clear g hg).1 inp
  | edit idx inp => exact (store_operations_clear g hg).2.1 idx inp
  | delete idx buf => exact (store_operations_clear g hg).2.2 idx buf
  | save env =>
    obtain ⟨-, -, -, -, he, hc⟩ := vault_save_frame sod env g
    show PastCountZero (vault_save sod env g).vault
    unfold PastCountZero
    rw [he, hc]
    exact hg
  | lock env =>
    exact ⟨Nat.zero_le _, fun _ _ _ => rfl⟩

/-- Admissible sequences keep the slots past the count zero. -/
theorem admissible_run_clear (sod : Sodium) (ops : List Op) (g : Vault) (hg : PastCountZero g)
    (hadm : Admissible sod ops g) : PastCountZero (run_ops sod ops g) := by
  induction ops generalizing g with
  | nil => exact hg
  | cons op ops ih =>
    exact ih (op.apply sod g) (admissible_step_clear sod op g hg hadm.1) hadm.2

set_option maxRecDepth 20000 in
/-- C16 as stated fails: neither `vault_create` nor `vault_load` clears the
slots it does not write. Creating, adding the record "A" and creating again
ends with count 0 and the record still in slot 0. Likewise, adding "A" to
the startup vault leaves `unlocked` false, and a successful open of an empty
container from that state ends with count 0 and the record in slot 0. -/
theorem record_survives_past_count :
    (run_ops toySodium
      [Op.create zeroCreateEnv [] pwP, Op.add addA, Op.create zeroCreateEnv [] pwP]
      Vault.init).count = 0 ∧
    (run_ops toySodium
      [Op.create zeroCreateEnv [] pwP, Op.add addA, Op.create zeroCreateEnv [] pwP]
      Vault.init).entries 0 ≠ AccountEntry.zero ∧
    (run_ops toySodium [Op.add addA] Vault.init).unlocked = false ∧
    (vault_load toySodium okLoadEnv (some emptyContainer) [] pwP
      (run_ops toySodium [Op.add addA] Vault.init)).ret = true ∧
    (run_ops toySodium [Op.add addA, Op.load okLoadEnv (some emptyContainer) [] pwP]
      Vault.init).count = 0 ∧
    (run_ops toySodium [Op.add addA, Op.load okLoadEnv (some emptyContainer) [] pwP]
      Vault.init).entries 0 ≠ AccountEntry.zero :=
  ⟨by decide, by decide, by decide, by decide, by decide, by decide⟩

/-- C16, amended to the calling discipline of the program. In every state
reached from the zeroed startup vault by a sequence of operations in which
each `vault_create` and each `vault_load` is applied in the Locked state
that process start and `vault_lock` leave (`unlocked` false, every record
slot zero), each such `vault_load` returns true, and `cmd_add` (completed or
cancelled), `cmd_edit`, `cmd_delete`, `vault_save` and `vault_lock` occur
freely, the count is at most 256 and every record slot at an index from
`count` to 255 is all zero. -/
theorem no_record_past_count (sod : Sodium) (ops : List Op)
    (hadm : Admissible sod ops Vault.init) :
    (run_ops sod ops Vault.init).count ≤ MAX_ENTRIES ∧
    ∀ i, (run_ops sod ops Vault.init).count ≤ i → i < MAX_ENTRIES →
      (run_ops sod ops Vault.init).entries i = AccountEntry.zero :=
  admissible_run_clear sod ops Vault.init ⟨Nat.zero_le _, fun _ _ _ => rfl⟩ hadm

/-- Instance of the amended C16: create, add "A", add "A", delete entry 1,
save, lock, create again. -/
theorem no_record_past_count_witness :
    (run_ops toySodium
      [Op.create zeroCreateEnv [] pwP, Op.add addA, Op.add addA, Op.delete 1 answerYes,
        Op.save okSaveEnv, Op.lock okSaveEnv, Op.create zeroCreateEnv [] pwP]
      Vault.init).count ≤ MAX_ENTRIES ∧
    ∀ i, (run_ops toySodium
      [Op.create zeroCreateEnv [] pwP, Op.add addA, Op.add addA, Op.delete 1 answerYes,
        Op.save okSaveEnv, Op.lock okSaveEnv, Op.create zeroCreateEnv [] pwP]
      Vault.init).count ≤ i → i < MAX_ENTRIES →
      (run_ops toySodium
        [Op.create zeroCreateEnv [] pwP, Op.add addA, Op.add addA, Op.delete 1 answerYes,
          Op.save okSaveEnv, Op.lock okSaveEnv, Op.create zeroCreateEnv [] pwP]
        Vault.init).entries i = AccountEntry.zero :=
  no_record_past_count toySodium
    [Op.create zeroCreateEnv [] pwP, Op.add addA, Op.add addA, Op.delete 1 answerYes,
      Op.save okSaveEnv, Op.lock okSaveEnv, Op.create zeroCreateEnv [] pwP]
    ⟨⟨rfl, fun _ _ => rfl⟩, trivial, trivial, trivial, trivial, trivial,
      ⟨rfl, fun _ _ => rfl⟩, trivial⟩

/-! ## The session invariant, continued -/

/-- A successful `vault_create` establishes the session invariant. -/
theorem vault_create_session (sod : Sodium) (env : CreateEnv) (path pw : List Byte) (g : Vault)
    (hret : (vault_create sod env path pw g).ret = true) :
    Session sod pw (vault_create sod env path pw g).vault := by
  by_cases hd : (derive_key sod pw env.salt).1 = true
  · rw [vault_create_ok sod env path pw g hd]
    have hpair : derive_key sod pw env.salt = (true, (derive_key sod pw env.salt).2) := by
      rw [← hd]
    exact ⟨rfl, rfl, rfl, hpair, Nat.zero_le _⟩
  · have hd2 : (derive_key sod pw env.salt).1 = false := by simpa using hd
    rw [vault_create_fail sod env path pw g hd2] at hret
    cases hret

/-- Adding a record keeps the session invariant. -/
theorem cmd_add_session (sod : Sodium) (pw : List Byte) (inp : AddInput) (g : Vault)
    (hs : Session sod pw g) : Session sod pw (cmd_add inp g) := by
  obtain ⟨h1, h2, h3, h4, h5⟩ := hs
  have h6 : g.count ≤ 256 := h5
  by_cases hfull : MAX_ENTRIES ≤ g.count
  · rw [cmd_add_full inp g hfull]
    exact ⟨h1, h2, h3, h4, h5⟩
  by_cases hname : inp.name.length = 0
  · have hcancel : cmd_add inp g
        = { g with entries := setEntry g.entries g.count AccountEntry.zero } := by
      unfold cmd_add
      rw [if_neg hfull, if_pos hname]
    rw [hcancel]
    exact ⟨h1, h2, h3, h4, h5⟩
  · have hlt : g.count < 256 := Nat.not_le.mp hfull
    rw [cmd_add_completed inp g hlt hname]
    exact ⟨h1, h2, h3, h4, by show g.count + 1 ≤ 256; omega⟩

/-- Editing a record keeps the session invariant. -/
theorem cmd_edit_session (sod : Sodium) (pw : List Byte) (idx : Int) (inp : EditInput)
    (g : Vault) (hs : Session sod pw g) : Session sod pw (cmd_edit idx inp g) := by
  obtain ⟨h1, h2, h3, h4, h5⟩ := hs
  by_cases hr : 1 ≤ idx ∧ idx ≤ (g.count : Int)
  · rw [cmd_edit_in_range idx inp g h5 hr.1 hr.2]
    exact ⟨h1, h2, h3, h4, h5⟩
  · rw [cmd_edit_out_of_range idx inp g h5 (by omega)]
    exact ⟨h1, h2, h3, h4, h5⟩

end Acctmgr
